import Mathlib

/-! # Slurpy: capture-and-persist pipeline

A shallow embedding of `pkg/models/request.go`, `pkg/storage/storage.go` and
`sdk/slurpy.go`.

Modelling conventions
* A Go `string` is a Lean `String`; every `Char` stands for one byte, so that
  `len`, `HasPrefix`, `HasSuffix`, `LastIndex` and slicing act position by
  position exactly as the byte-wise Go functions do.
* A Go `[]byte` is a `List UInt8`; `string(b)` is `goString b`.
* `time.Time` is the instant in nanoseconds (`Int`), `time.Duration` is `Int`.
* A Go `error` is its message (`String`); `nil` is `none`.
* Pointers to records are the records themselves.
* The standard library is not part of the repository: `encoding/json` is a
  parameter (`EncodingJSON`), the `os` calls act on an explicit model of the
  logs directory (`LogsDir`), the wrapped `http.Client` is a function from the
  request to its outcome, and the clock and the random id are arguments.
* `os.UserHomeDir` and the outcome of `os.MkdirAll` on a missing logs directory
  are given by an `Env`; the base directory is the home directory followed by
  `/` and `SlurpyDir`.
* Every `Storage` handle resolves to the same `<home>/.config/slurpy/logs`.
  `filepath.Join(logsDir, name)` is resolved by `resolvePath` (separator `/`):
  only a name that resolves to an entry of the logs directory changes its
  listing.
* A body stream is a value that holds what is still to be read; `ReadAll`
  returns the stream as the read leaves it, and `Do` carries that stream on.
-/

namespace Slurpy

/-! ## Strings and byte slices -/

/-- Go `[]byte`. -/
abbrev Bytes := List UInt8

/-- Go `string(b)` for a byte slice `b`: the same bytes, one `Char` per byte. -/
def goString (b : Bytes) : String :=
  ⟨b.map (fun x => Char.ofNat x.toNat)⟩

/-- Go `strings.HasPrefix(s, p)`. -/
def HasPrefix (s p : String) : Bool :=
  p.data.isPrefixOf s.data

/-- Go `strings.HasSuffix(s, p)`. -/
def HasSuffix (s p : String) : Bool :=
  p.data.isSuffixOf s.data

/-- Scan of `strings.LastIndex` for a one-byte separator: `i` is the position of
the head of the list, `acc` the last match seen so far. -/
def lastIndexFrom (c : Char) : List Char → Nat → Int → Int
  | [], _, acc => acc
  | x :: xs, i, acc => lastIndexFrom c xs (i + 1) (if x = c then (i : Int) else acc)

/-- Go `strings.LastIndex(s, string(c))`: the position of the last `c` in `s`,
or `-1` when there is none. -/
def LastIndex (s : String) (c : Char) : Int :=
  lastIndexFrom c s.data 0 (-1)

/-- Go `s[:n]`. -/
def sliceTo (s : String) (n : Nat) : String :=
  ⟨s.data.take n⟩

/-- Lexicographic comparison, position by position. -/
def lexLess : List Char → List Char → Bool
  | [], [] => false
  | [], _ :: _ => true
  | _ :: _, [] => false
  | a :: as, b :: bs =>
    if a.toNat < b.toNat then true
    else if b.toNat < a.toNat then false
    else lexLess as bs

/-- Go `a < b` on strings. -/
def stringLess (a b : String) : Bool :=
  lexLess a.data b.data

/-! ## `sort.Slice` and `sort.Strings`

`sort.Slice` sorts slices of at most twelve elements by insertion sort
(`insertionSortLessFunc`): element `i` is swapped leftwards while it is `less`
than its left neighbour. That loop is embedded here for every length; on longer
slices the library switches to other strategies, which can only differ in the
order of elements that compare equal. -/

/-- Inner loop of the insertion sort, on the already sorted part held in reverse
(nearest neighbour first): `x` moves past every neighbour it is `less` than. -/
def sinkLeft {α : Type} (less : α → α → Bool) (x : α) : List α → List α
  | [] => [x]
  | y :: rest => if less x y then y :: sinkLeft less x rest else x :: y :: rest

/-- Go `sort.Slice(xs, less)`. -/
def sortSlice {α : Type} (less : α → α → Bool) (xs : List α) : List α :=
  (xs.foldl (fun sorted x => sinkLeft less x sorted) []).reverse

/-- Go `sort.Strings(xs)`. -/
def sortStrings (xs : List String) : List String :=
  sortSlice stringLess xs

/-! ## `pkg/models/request.go` -/

/-- Go `map[string]string`, as an association list with one entry per key. -/
abbrev StringMap := List (String × String)

/-- Go `http.Header` (`map[string][]string`). -/
abbrev Header := List (String × List String)

/-- Go map assignment `m[k] = v`. -/
def mapSet (m : StringMap) (k v : String) : StringMap :=
  match m with
  | [] => [(k, v)]
  | (k', v') :: rest => if k' = k then (k, v) :: rest else (k', v') :: mapSet rest k v

/-- Go map lookup `m[k]` with its presence flag. -/
def mapGet {β : Type} (m : List (String × β)) (k : String) : Option β :=
  match m with
  | [] => none
  | (k', v) :: rest => if k' = k then some v else mapGet rest k

/-- The HTTP response part of a record. -/
structure LoggedResponse where
  StatusCode : Int
  Headers : StringMap
  Body : String
  Size : Int
deriving DecidableEq, Repr

/-- A complete HTTP request/response cycle. -/
structure LoggedRequest where
  ID : String
  Timestamp : Int
  Method : String
  URL : String
  Headers : StringMap
  Body : String
  Response : Option LoggedResponse
  Duration : Int
  Namespace : String
  Error : String
deriving DecidableEq, Repr

/-- The two `encoding/json` entry points the models use, specialised to
`LoggedRequest`: `json.Marshal(lr)` and `json.Unmarshal(data, &req)`. -/
structure EncodingJSON where
  Marshal : LoggedRequest → Except String Bytes
  Unmarshal : Bytes → Except String LoggedRequest

/-- `(*LoggedRequest).ToJSON`. -/
def ToJSON (json : EncodingJSON) (lr : LoggedRequest) : Except String Bytes :=
  json.Marshal lr

/-- `FromJSON`: the decoded record, or the decoding error. -/
def FromJSON (json : EncodingJSON) (data : Bytes) : Except String LoggedRequest :=
  json.Unmarshal data

/-- `HeadersFromHTTP`: the first value of every header that has one. -/
def HeadersFromHTTP (h : Header) : StringMap :=
  h.foldl (fun headers kv =>
    match kv.2 with
    | [] => headers
    | v0 :: _ => mapSet headers kv.1 v0) []

/-! ## The logs directory (`os.ReadDir`, `os.ReadFile`, `os.WriteFile`, `os.Remove`) -/

/-- One entry of the logs directory, with what the `os` calls do on it. -/
structure DirEntry where
  /-- Result of `entry.Name()`. -/
  Name : String
  /-- Result of `entry.IsDir()`. -/
  IsDir : Bool
  /-- Result of `os.ReadFile` on the entry; `none` when the read fails. -/
  content : Option Bytes
  /-- Whether `os.Remove` succeeds on the entry. -/
  removable : Bool
  /-- Whether `os.WriteFile` can open the existing entry for writing. -/
  writable : Bool
  /-- Whether writing to the entry, once it is open and truncated, fails (no
  space left, I/O error). -/
  writeFails : Bool := false
deriving DecidableEq, Repr

/-- State of `<baseDir>/logs`. -/
inductive LogsDir where
  /-- The directory does not exist. -/
  | missing
  /-- The directory exists; `listable` says whether `os.ReadDir` succeeds,
  `creatable` whether new files can be created in it, and `entries` is its
  listing in the order `os.ReadDir` yields it. -/
  | present (listable creatable : Bool) (entries : List DirEntry)
deriving DecidableEq, Repr

/-- Failure of `os.ReadDir`. -/
inductive ReadDirError where
  /-- An error for which `os.IsNotExist` holds. -/
  | notExist
  /-- Any other error. -/
  | other
deriving DecidableEq, Repr

/-- Go `os.ReadDir(logsDir)`. -/
def ReadDir : LogsDir → Except ReadDirError (List DirEntry)
  | .missing => .error .notExist
  | .present false _ _ => .error .other
  | .present true _ entries => .ok entries

/-- The entries of the directory, whether or not it can be listed. -/
def LogsDir.entries : LogsDir → List DirEntry
  | .missing => []
  | .present _ _ es => es

/-- Go `os.ReadFile(filepath.Join(logsDir, name))` for a listed entry. -/
def ReadFile (e : DirEntry) : Except String Bytes :=
  match e.content with
  | some data => .ok data
  | none => .error ("read " ++ e.Name ++ ": failed")

/-- A new regular file in its place in the name-ordered listing. -/
def insertEntry (e : DirEntry) : List DirEntry → List DirEntry
  | [] => [e]
  | x :: rest =>
    if stringLess e.Name x.Name then e :: x :: rest else x :: insertEntry e rest

/-- Content of the first entry called `name` replaced by `data`. The
permissions of the file stay as they are: an entry that `os.ReadFile` could not
read (`content = none`) still cannot be read. -/
def overwriteEntry (name : String) (data : Bytes) : List DirEntry → List DirEntry
  | [] => []
  | x :: rest =>
    if x.Name = name then { x with content := x.content.map (fun _ => data) } :: rest
    else x :: overwriteEntry name data rest

/-- The constant `SlurpyDir`. -/
def SlurpyDir : String := ".config/slurpy"

/-- The constant `LogsSubdir`. -/
def LogsSubdir : String := "logs"

/-- The parts of a path between its separators `/`. -/
def splitPath : List Char → List (List Char)
  | [] => [[]]
  | c :: cs =>
    if c = '/' then [] :: splitPath cs
    else
      match splitPath cs with
      | [] => [[c]]
      | comp :: rest => (c :: comp) :: rest

/-- One step of the lexical cleaning done by `filepath.Join` (`filepath.Clean`),
on a path that starts at the logs directory. The state is the number of
directories the path has climbed above the logs directory and the components
below that point, innermost first: empty components and `.` are dropped, `..`
removes the component before it, or climbs when there is none. -/
def cleanStep (st : Nat × List (List Char)) (comp : List Char) : Nat × List (List Char) :=
  if comp = [] ∨ comp = ['.'] then st
  else if comp = ['.', '.'] then
    match st.2 with
    | [] => (st.1 + 1, [])
    | _ :: below => (st.1, below)
  else (st.1, comp :: st.2)

/-- Names of the logs directory and of its ancestors below the home directory,
nearest first: `logs`, `slurpy`, `.config`. -/
def logsAncestors : List (List Char) :=
  LogsSubdir.data :: (splitPath SlurpyDir.data).reverse

/-- Where `filepath.Join(logsDir, name)` points. -/
inductive WriteTarget where
  /-- The entry `name` of the logs directory. -/
  | entry (name : String)
  /-- A path below the entry `dir` of the logs directory. -/
  | inside (dir : String)
  /-- The logs directory itself. -/
  | directory
  /-- A path outside the logs directory. -/
  | elsewhere
deriving DecidableEq, Repr

/-- Go `filepath.Join(logsDir, name)`, as far as the logs directory is
concerned. A path that climbs `k` directories is followed back down when its
next `k` components spell the way back to the logs directory; a path that climbs
above the home directory is not followed. -/
def resolvePath (name : String) : WriteTarget :=
  let st := (splitPath name.data).foldl cleanStep (0, [])
  let comps := st.2.reverse
  if st.1 ≤ logsAncestors.length ∧ ((logsAncestors.take st.1).reverse).isPrefixOf comps then
    match comps.drop st.1 with
    | [] => .directory
    | [n] => .entry ⟨n⟩
    | d :: _ => .inside ⟨d⟩
  else .elsewhere

/-- Go `os.WriteFile` on the entry `name` of the logs directory: the file is
opened with `O_WRONLY|O_CREATE|O_TRUNC`, which creates it or empties it, and
then `data` is written. A failure of the open leaves the directory as it is; a
failure of the write to an existing file (`writeFails`) leaves that file empty.
A file that the call creates is taken to receive `data`: a write that fails on a
new file is not part of the model. -/
def writeEntry (fs : LogsDir) (name : String) (data : Bytes) : LogsDir × Option String :=
  match fs with
  | .missing => (.missing, some ("open " ++ name ++ ": no such file or directory"))
  | .present listable creatable entries =>
    match entries.find? (fun e => e.Name = name) with
    | some e =>
      if e.IsDir then
        (.present listable creatable entries, some ("open " ++ name ++ ": is a directory"))
      else if e.writable then
        if e.writeFails then
          (.present listable creatable (overwriteEntry name [] entries),
           some ("write " ++ name ++ ": no space left on device"))
        else (.present listable creatable (overwriteEntry name data entries), none)
      else (.present listable creatable entries, some ("open " ++ name ++ ": permission denied"))
    | none =>
      if creatable then
        (.present listable creatable
          (insertEntry { Name := name, IsDir := false, content := some data,
                         removable := true, writable := true } entries), none)
      else (.present listable creatable entries, some ("open " ++ name ++ ": permission denied"))

/-- Go `os.WriteFile(filepath.Join(logsDir, name), data, 0644)`: the directory
afterwards and the returned error. A name without separator is an entry of the
logs directory. A name that leads below an entry needs that entry to be a
directory, and a name that leads out of the logs directory leaves it as it is;
what lies outside the listing is taken to accept the write. -/
def WriteFile (fs : LogsDir) (name : String) (data : Bytes) : LogsDir × Option String :=
  match resolvePath name with
  | .entry n => writeEntry fs n data
  | .directory => (fs, some ("open " ++ name ++ ": is a directory"))
  | .elsewhere => (fs, none)
  | .inside dir =>
    match fs.entries.find? (fun e => e.Name = dir) with
    | none => (fs, some ("open " ++ name ++ ": no such file or directory"))
    | some d =>
      if d.IsDir then (fs, none)
      else (fs, some ("open " ++ name ++ ": not a directory"))

/-- Go `os.Remove(filepath.Join(logsDir, name))`. -/
def Remove (fs : LogsDir) (name : String) : Except String LogsDir :=
  match fs with
  | .missing => .error ("remove " ++ name ++ ": no such file or directory")
  | .present listable creatable entries =>
    match entries.find? (fun e => e.Name = name) with
    | some e =>
      if e.removable then
        .ok (.present listable creatable (entries.filter (fun x => x.Name ≠ name)))
      else .error ("remove " ++ name ++ ": operation not permitted")
    | none => .error ("remove " ++ name ++ ": no such file or directory")

/-! ## `pkg/storage/storage.go` -/

/-- The constant `RequestSuffix`. -/
def RequestSuffix : String := ".json"

/-- File name `fmt.Sprintf("%s_%s%s", req.Namespace, req.ID, RequestSuffix)`. -/
def fileName (req : LoggedRequest) : String :=
  req.Namespace ++ "_" ++ req.ID ++ RequestSuffix

/-- `(*Storage).SaveRequest`: the directory afterwards and the returned error. -/
def SaveRequest (json : EncodingJSON) (fs : LogsDir) (req : LoggedRequest) :
    LogsDir × Option String :=
  let filename := fileName req
  match ToJSON json req with
  | .error err => (fs, some ("failed to marshal request: " ++ err))
  | .ok data => WriteFile fs filename data

/-- Body of the two read loops: entries that pass `selected` are read and
decoded, and an entry whose read or decoding fails is skipped. -/
def loadLoop (json : EncodingJSON) (selected : DirEntry → Bool) :
    List DirEntry → List LoggedRequest
  | [] => []
  | entry :: rest =>
    if !selected entry then loadLoop json selected rest
    else
      match ReadFile entry with
      | .error _ => loadLoop json selected rest
      | .ok data =>
        match FromJSON json data with
        | .error _ => loadLoop json selected rest
        | .ok req => req :: loadLoop json selected rest

/-- The comparison handed to `sort.Slice`:
`requests[i].Timestamp.After(requests[j].Timestamp)`. -/
def newestFirst (a b : LoggedRequest) : Bool :=
  decide (b.Timestamp < a.Timestamp)

/-- Entries `LoadRequests` and `ClearNamespace` act on: regular files whose name
starts with `pfx` and ends with `RequestSuffix`. `LoadRequests` skips an entry on
`IsDir || !HasPrefix || !HasSuffix`; `ClearNamespace` removes it on
`!IsDir && HasPrefix && HasSuffix`, which is the same condition. -/
def matchesNamespace (pfx : String) (entry : DirEntry) : Bool :=
  !(entry.IsDir || !HasPrefix entry.Name pfx || !HasSuffix entry.Name RequestSuffix)

/-- Entries `LoadAllRequests` and `GetNamespaces` act on: regular files whose
name ends with `RequestSuffix`. -/
def isRequestFile (entry : DirEntry) : Bool :=
  !(entry.IsDir || !HasSuffix entry.Name RequestSuffix)

/-- `(*Storage).LoadRequests`. -/
def LoadRequests (json : EncodingJSON) (fs : LogsDir) (ns : String) :
    Except String (List LoggedRequest) :=
  match ReadDir fs with
  | .error .notExist => .ok []
  | .error .other => .error "failed to read logs directory"
  | .ok entries =>
    let pfx := ns ++ "_"
    .ok (sortSlice newestFirst (loadLoop json (matchesNamespace pfx) entries))

/-- `(*Storage).LoadAllRequests`. -/
def LoadAllRequests (json : EncodingJSON) (fs : LogsDir) :
    Except String (List LoggedRequest) :=
  match ReadDir fs with
  | .error .notExist => .ok []
  | .error .other => .error "failed to read logs directory"
  | .ok entries => .ok (sortSlice newestFirst (loadLoop json isRequestFile entries))

/-- Go `namespaces[ns] = true` on the key set of a `map[string]bool`. -/
def setAdd (keys : List String) (k : String) : List String :=
  if k ∈ keys then keys else keys ++ [k]

/-- Loop of `GetNamespaces`: the part of each request file name before its last
`_`, when that `_` is not at position 0. -/
def namespaceLoop : List DirEntry → List String → List String
  | [], namespaces => namespaces
  | entry :: rest, namespaces =>
    if !isRequestFile entry then namespaceLoop rest namespaces
    else
      let name := entry.Name
      let idx := LastIndex name '_'
      if idx > 0 then namespaceLoop rest (setAdd namespaces (sliceTo name idx.toNat))
      else namespaceLoop rest namespaces

/-- `(*Storage).GetNamespaces`. -/
def GetNamespaces (fs : LogsDir) : Except String (List String) :=
  match ReadDir fs with
  | .error .notExist => .ok []
  | .error .other => .error "failed to read logs directory"
  | .ok entries => .ok (sortStrings (namespaceLoop entries []))

/-- Loop of `ClearNamespace` over the listing read at the start: every matching
entry is removed in turn, and the first failing removal ends the loop. -/
def clearLoop (pfx : String) : List DirEntry → LogsDir → LogsDir × Option String
  | [], fs => (fs, none)
  | entry :: rest, fs =>
    if matchesNamespace pfx entry then
      match Remove fs entry.Name with
      | .error err => (fs, some ("failed to remove file " ++ entry.Name ++ ": " ++ err))
      | .ok fs' => clearLoop pfx rest fs'
    else clearLoop pfx rest fs

/-- `(*Storage).ClearNamespace`: the directory afterwards and the returned error. -/
def ClearNamespace (fs : LogsDir) (ns : String) : LogsDir × Option String :=
  match ReadDir fs with
  | .error _ => (fs, some "failed to read logs directory")
  | .ok entries => clearLoop (ns ++ "_") entries fs

/-! ## `sdk/slurpy.go` -/

/-- Go `io.ReadCloser` body: the bytes it still yields, the error (other than
`io.EOF`) it ends with, if any, and the number of bytes already read from it. -/
structure BodyStream where
  pending : Bytes
  failure : Option String
  offset : Nat := 0
deriving DecidableEq, Repr

/-- The stream `r` once it was read to its end: nothing is left to read. -/
def drained (r : BodyStream) : BodyStream :=
  { r with pending := [], offset := r.offset + r.pending.length }

/-- Go `io.ReadAll(r)`: the bytes read, the error, and the stream `r` as the
call leaves it. Reading consumes: the bytes handed out are no longer in the
stream. -/
def ReadAll (r : BodyStream) : Bytes × Option String × BodyStream :=
  (r.pending, r.failure, drained r)

/-- Go `io.NopCloser(bytes.NewReader(b))`: a new stream positioned at the start
of `b` that ends with `io.EOF`. -/
def NewReader (b : Bytes) : BodyStream :=
  { pending := b, failure := none, offset := 0 }

/-- The parts of `*http.Request` that `Do` uses; `URL` is `req.URL.String()`. -/
structure Request where
  Method : String
  URL : String
  Header : Header
  Body : Option BodyStream
deriving DecidableEq, Repr

/-- The parts of `*http.Response` that `Do` uses. -/
structure Response where
  StatusCode : Int
  Header : Header
  Body : Option BodyStream
deriving DecidableEq, Repr

/-- What `(*http.Client).Do` returns: a response with a `nil` error, or an error
(with which a response can still come, when `CheckRedirect` fails). -/
inductive Outcome where
  | success (resp : Response)
  | failure (resp : Option Response) (err : String)
deriving DecidableEq, Repr

/-- The response of the returned pair (`none` is `nil`). -/
def Outcome.resp : Outcome → Option Response
  | .success r => some r
  | .failure r _ => r

/-- The error of the returned pair (`none` is `nil`). -/
def Outcome.err : Outcome → Option String
  | .success _ => none
  | .failure _ e => some e

/-- Handle on the storage: `storage.Storage`. -/
structure Storage where
  baseDir : String
deriving DecidableEq, Repr

/-- What `storage.New` finds around it. -/
structure Env where
  /-- Result of `os.UserHomeDir()`. -/
  homeDir : Except String String
  /-- Whether `os.MkdirAll` can create the logs directory when it is missing. -/
  canMkdir : Bool

/-- Go `os.MkdirAll(filepath.Join(baseDir, LogsSubdir), 0755)`: nothing to do
when the directory exists, otherwise it is created empty, or the call fails. -/
def MkdirAll (env : Env) (fs : LogsDir) : Except String LogsDir :=
  match fs with
  | .present listable creatable entries => .ok (.present listable creatable entries)
  | .missing =>
    if env.canMkdir then .ok (.present true true [])
    else .error "mkdir: permission denied"

/-- `storage.New`: the handle or the error, and the logs directory afterwards. -/
def Storage.New (env : Env) (fs : LogsDir) : Except String Storage × LogsDir :=
  match env.homeDir with
  | .error err => (.error ("failed to get home directory: " ++ err), fs)
  | .ok homeDir =>
    let baseDir := homeDir ++ "/" ++ SlurpyDir
    match MkdirAll env fs with
    | .error err => (.error ("failed to create slurpy directories: " ++ err), fs)
    | .ok fs' => (.ok { baseDir := baseDir }, fs')

/-- Configuration of the client. -/
structure Config where
  Namespace : String
  Enabled : Bool
deriving DecidableEq, Repr

/-- The client; `httpClient` is the `Do` of the embedded `*http.Client`. -/
structure Client where
  httpClient : Request → Outcome
  namespace_ : String
  enabled : Bool
  storage : Option Storage

/-- What one call of `Client.Do` does: the pair it returns, the request it
handed to the wrapped client, the record it handed to `SaveRequest` (if any),
the warning it printed (if any) and the logs directory afterwards. -/
structure DoResult where
  outcome : Outcome
  sent : Request
  saved : Option LoggedRequest
  warning : Option String
  fs : LogsDir
deriving DecidableEq, Repr

/-- `(*Client).Do`. `startTime` is the reading of `time.Now()`, `reqID` the
result of `generateID()`, `duration` the reading of `time.Since(startTime)`;
`none` is a nil-pointer panic on a missing storage. -/
def Client.Do (json : EncodingJSON) (c : Client) (startTime : Int) (reqID : String)
    (duration : Int) (fs : LogsDir) (req : Request) : Option DoResult :=
  if !c.enabled then
    some { outcome := c.httpClient req, sent := req, saved := none, warning := none, fs := fs }
  else
    let loggedReq : LoggedRequest :=
      { ID := reqID, Timestamp := startTime, Method := req.Method, URL := req.URL,
        Headers := HeadersFromHTTP req.Header, Body := "", Response := none,
        Duration := 0, Namespace := c.namespace_, Error := "" }
    -- Capture request body if present
    let (loggedReq, req) :=
      match req.Body with
      | none => (loggedReq, req)
      | some body =>
        -- `io.ReadAll(req.Body)` reads the stream `req.Body` points to:
        -- from here on `req.Body` is that stream, read to its end
        let (bodyBytes, err, body) := ReadAll body
        let req := { req with Body := some body }
        match err with
        | none =>
          -- Restore body for the actual request
          ({ loggedReq with Body := goString bodyBytes },
           { req with Body := some (NewReader bodyBytes) })
        | some _ => (loggedReq, req)
    -- Execute the request
    let result := c.httpClient req
    let loggedReq := { loggedReq with Duration := duration }
    let (loggedReq, result) :=
      match result with
      | .failure resp err => ({ loggedReq with Error := err }, Outcome.failure resp err)
      | .success resp =>
        let loggedResp : LoggedResponse :=
          { StatusCode := resp.StatusCode, Headers := HeadersFromHTTP resp.Header,
            Body := "", Size := 0 }
        let (loggedResp, resp) :=
          match resp.Body with
          | none => (loggedResp, resp)
          | some body =>
            -- `io.ReadAll(resp.Body)`: from here on `resp.Body` is read to its end
            let (bodyBytes, readErr, body) := ReadAll body
            let resp := { resp with Body := some body }
            match readErr with
            | none =>
              -- Restore body for the caller
              ({ loggedResp with Body := goString bodyBytes, Size := (bodyBytes.length : Int) },
               { resp with Body := some (NewReader bodyBytes) })
            | some _ => (loggedResp, resp)
        ({ loggedReq with Response := some loggedResp }, Outcome.success resp)
    -- Save the logged request
    match c.storage with
    | none => none
    | some _ =>
      let (fs, saveErr) := SaveRequest json fs loggedReq
      some { outcome := result, sent := req, saved := some loggedReq,
             warning := saveErr.map (fun e => "Warning: failed to save request log: " ++ e),
             fs := fs }

/-- `New`: the client or the error, and the logs directory afterwards. `plain`
is the `Do` of the `&http.Client{}` that `New` allocates. -/
def New (env : Env) (plain : Request → Outcome) (config : Config) (fs : LogsDir) :
    Except String Client × LogsDir :=
  let config : Config :=
    if config.Namespace = "" then { config with Namespace := "default" } else config
  if config.Enabled then
    match Storage.New env fs with
    | (.error err, fs') => (.error ("failed to initialize storage: " ++ err), fs')
    | (.ok store, fs') =>
      (.ok { httpClient := plain, namespace_ := config.Namespace, enabled := config.Enabled,
             storage := some store }, fs')
  else
    (.ok { httpClient := plain, namespace_ := config.Namespace, enabled := config.Enabled,
           storage := none }, fs)

/-- `(*Client).SetEnabled`: the client and the logs directory afterwards, and
the returned error. -/
def Client.SetEnabled (env : Env) (c : Client) (fs : LogsDir) (enabled : Bool) :
    Client × LogsDir × Option String :=
  if enabled && c.storage.isNone then
    match Storage.New env fs with
    | (.error err, fs') => (c, fs', some ("failed to initialize storage: " ++ err))
    | (.ok store, fs') => ({ c with storage := some store, enabled := enabled }, fs', none)
  else
    ({ c with enabled := enabled }, fs, none)

/-- `WrapDefaultClient`: the value of `http.DefaultClient` afterwards (its `Do`),
the logs directory afterwards, and the returned error. -/
def WrapDefaultClient (env : Env) (plain : Request → Outcome)
    (defaultClient : Request → Outcome) (config : Config) (fs : LogsDir) :
    (Request → Outcome) × LogsDir × Option String :=
  match New env plain config fs with
  | (.error err, fs') => (defaultClient, fs', some err)
  | (.ok client, fs') => (client.httpClient, fs', none)

/-- A request executed through the process-wide default client,
`http.DefaultClient.Do(req)`: the call of a `*http.Client`, which returns its
outcome and leaves the logs directory as it is. -/
def defaultClientDo (defaultClient : Request → Outcome) (fs : LogsDir) (req : Request) :
    Outcome × LogsDir :=
  (defaultClient req, fs)

/-- `(*Client).SetNamespace`. -/
def Client.SetNamespace (c : Client) (ns : String) : Client :=
  { c with namespace_ := ns }

/-- `(*Client).GetNamespace`. -/
def Client.GetNamespace (c : Client) : String :=
  c.namespace_

/-- `(*Client).IsEnabled`. -/
def Client.IsEnabled (c : Client) : Bool :=
  c.enabled

/-- One call of a runtime mutator; every `SetEnabled` comes with what
`storage.New` finds at that moment. -/
inductive ClientOp where
  | setNamespace (ns : String)
  | setEnabled (env : Env) (enabled : Bool)

/-- The client and the logs directory after one mutator call, whether it
returned an error or not. -/
def applyOp (st : Client × LogsDir) : ClientOp → Client × LogsDir
  | .setNamespace ns => (st.1.SetNamespace ns, st.2)
  | .setEnabled env enabled =>
    ((st.1.SetEnabled env st.2 enabled).1, (st.1.SetEnabled env st.2 enabled).2.1)

/-- The client and the logs directory after a sequence of mutator calls. -/
def runOps (st : Client × LogsDir) (ops : List ClientOp) : Client × LogsDir :=
  ops.foldl applyOp st

/-! ## What the directory holds -/

/-- Record held by a directory entry: what `FromJSON` makes of what
`os.ReadFile` yields, when both succeed. -/
def decodeEntry (json : EncodingJSON) (e : DirEntry) : Option LoggedRequest :=
  match e.content with
  | none => none
  | some data =>
    match json.Unmarshal data with
    | .ok req => some req
    | .error _ => none

/-- The successfully decoded records of the selected entries, in listing order. -/
def decodedRecords (json : EncodingJSON) (selected : DirEntry → Bool)
    (entries : List DirEntry) : List LoggedRequest :=
  (entries.filter selected).filterMap (decodeEntry json)

/-- The sequence a call returned; empty when it returned an error. -/
def returned {α : Type} : Except String (List α) → List α
  | .ok xs => xs
  | .error _ => []

/-- The ids of the records a read returned. -/
def recordIDs (res : Except String (List LoggedRequest)) : List String :=
  (returned res).map (fun r => r.ID)

/-! ## The steps of `Client.Do`, one by one -/

/-- The request `Do` hands to the wrapped client: the caller's request, whose
body was read to its end and, when that read met no error, replaced by a new
reader over the bytes read. -/
def sentRequest (req : Request) : Request :=
  match req.Body with
  | none => req
  | some body =>
    match (ReadAll body).2.1 with
    | none => { req with Body := some (NewReader (ReadAll body).1) }
    | some _ => { req with Body := some (ReadAll body).2.2 }

/-- The `Body` of the record: the text of the request body when it was read
without error. -/
def capturedBody (req : Request) : String :=
  match req.Body with
  | none => ""
  | some body =>
    match (ReadAll body).2.1 with
    | none => goString (ReadAll body).1
    | some _ => ""

/-- The response `Do` returns for the response `resp` of the wrapped client: its
body was read to its end and, when that read met no error, replaced by a new
reader over the bytes read. -/
def restoredResponse (resp : Response) : Response :=
  match resp.Body with
  | none => resp
  | some body =>
    match (ReadAll body).2.1 with
    | none => { resp with Body := some (NewReader (ReadAll body).1) }
    | some _ => { resp with Body := some (ReadAll body).2.2 }

/-- The response part of the record for the response `resp` of the wrapped
client. -/
def capturedResponse (resp : Response) : LoggedResponse :=
  match resp.Body with
  | none =>
    { StatusCode := resp.StatusCode, Headers := HeadersFromHTTP resp.Header, Body := "",
      Size := 0 }
  | some body =>
    match (ReadAll body).2.1 with
    | none =>
      { StatusCode := resp.StatusCode, Headers := HeadersFromHTTP resp.Header,
        Body := goString (ReadAll body).1, Size := ((ReadAll body).1.length : Int) }
    | some _ =>
      { StatusCode := resp.StatusCode, Headers := HeadersFromHTTP resp.Header, Body := "",
        Size := 0 }

/-- The pair `Do` returns for the outcome of the wrapped client. -/
def returnedOutcome : Outcome → Outcome
  | .failure resp err => .failure resp err
  | .success resp => .success (restoredResponse resp)

/-- The record `Do` hands to `SaveRequest`. -/
def completedRecord (c : Client) (startTime : Int) (reqID : String) (duration : Int)
    (req : Request) (result : Outcome) : LoggedRequest :=
  { ID := reqID, Timestamp := startTime, Method := req.Method, URL := req.URL,
    Headers := HeadersFromHTTP req.Header, Body := capturedBody req,
    Response :=
      match result with
      | .failure _ _ => none
      | .success resp => some (capturedResponse resp),
    Duration := duration, Namespace := c.namespace_,
    Error :=
      match result with
      | .failure _ err => err
      | .success _ => "" }

/-! ## Concrete inputs -/

deriving instance DecidableEq for Except

/-- A JSON library that knows the listed records only: `Marshal` yields the
bytes listed with a record, `Unmarshal` the record listed with the bytes, and
both fail on anything else. -/
def tableJSON (table : List (LoggedRequest × Bytes)) : EncodingJSON where
  Marshal := fun lr =>
    match table.find? (fun p => p.1 = lr) with
    | some p => .ok p.2
    | none => .error "json: unsupported value"
  Unmarshal := fun data =>
    match table.find? (fun p => p.2 = data) with
    | some p => .ok p.1
    | none => .error "invalid character"

/-- An error-outcome record with the given namespace, id and timestamp. -/
def sampleRecord (ns id : String) (ts : Int) : LoggedRequest :=
  { ID := id, Timestamp := ts, Method := "GET", URL := "http://localhost/", Headers := [],
    Body := "", Response := none, Duration := 5, Namespace := ns, Error := "connection refused" }

/-- An existing, listable, writable and empty logs directory. -/
def emptyLogs : LogsDir := .present true true []

/-- A readable, removable and writable regular file. -/
def plainFile (name : String) (data : Bytes) : DirEntry :=
  { Name := name, IsDir := false, content := some data, removable := true, writable := true }

/-- A record of namespace `svc_v2`. -/
def svcV2Record : LoggedRequest := sampleRecord "svc_v2" "a1" 1

/-- JSON library for `svcV2Record`. -/
def svcV2JSON : EncodingJSON := tableJSON [(svcV2Record, [1])]

/-- Three records of namespace `svc` with timestamps 10 < 20 < 30. -/
def svcT1 : LoggedRequest := sampleRecord "svc" "id1" 10

/-- See `svcT1`. -/
def svcT2 : LoggedRequest := sampleRecord "svc" "id2" 20

/-- See `svcT1`. -/
def svcT3 : LoggedRequest := sampleRecord "svc" "id3" 30

/-- JSON library for `svcT1`, `svcT2` and `svcT3`. -/
def svcJSON : EncodingJSON := tableJSON [(svcT1, [1]), (svcT2, [2]), (svcT3, [3])]

/-- A record saved after `SetNamespace("")`. -/
def emptyNsRecord : LoggedRequest := sampleRecord "" "a1" 1

/-- JSON library for `emptyNsRecord`. -/
def emptyNsJSON : EncodingJSON := tableJSON [(emptyNsRecord, [1])]

/-- The logs directory after `emptyNsRecord` was saved: it holds `_a1.json`. -/
def emptyNsLogs : LogsDir := (SaveRequest emptyNsJSON emptyLogs emptyNsRecord).1

/-- A logs directory with two `svc` records, one `other` record, a
subdirectory and a file that is no request file. -/
def mixedLogs : LogsDir :=
  .present true true
    [ { Name := "notes.txt", IsDir := false, content := some [7], removable := true,
        writable := true },
      plainFile "other_id9.json" [9],
      { Name := "svc_dir.json", IsDir := true, content := none, removable := true,
        writable := false },
      plainFile "svc_id1.json" [1],
      plainFile "svc_id2.json" [2] ]

/-- A file that `os.Remove` cannot remove. -/
def lockedFile (name : String) (data : Bytes) : DirEntry :=
  { Name := name, IsDir := false, content := some data, removable := false, writable := true }

/-- A logs directory whose second `svc` file cannot be removed. -/
def lockedLogs : LogsDir :=
  .present true true
    [plainFile "svc_id1.json" [1], lockedFile "svc_id2.json" [2], plainFile "svc_id3.json" [3]]

/-- A record with the namespace and the id of `svcT1` and another timestamp. -/
def svcT1Later : LoggedRequest := sampleRecord "svc" "id1" 99

/-- JSON library for `svcT1` and `svcT1Later`. -/
def sameIdJSON : EncodingJSON := tableJSON [(svcT1, [1]), (svcT1Later, [9])]

/-- A logs directory with two good `svc` files, a file whose bytes do not decode
and a file that cannot be read. -/
def corruptLogs : LogsDir :=
  .present true true
    [ plainFile "svc_id1.json" [1],
      plainFile "svc_id2.json" [2],
      plainFile "svc_idx.json" [255, 255],
      { Name := "svc_idy.json", IsDir := false, content := none, removable := true,
        writable := true } ]

/-- A wrapped HTTP client: the host `unreachable` cannot be dialled, every other
request is answered with status 200 and the two-byte body `ok`. -/
def stubHTTP (req : Request) : Outcome :=
  if req.URL = "http://unreachable/" then .failure none "dial tcp: connection refused"
  else .success { StatusCode := 200, Header := [("Content-Type", ["text/plain"])],
                  Body := some (NewReader [111, 107]) }

/-- An enabled client of namespace `svc`. -/
def svcClient : Client :=
  { httpClient := stubHTTP, namespace_ := "svc", enabled := true,
    storage := some { baseDir := "/home/user/.config/slurpy" } }

/-- A POST request whose body yields the two bytes `hi`. -/
def postRequest : Request :=
  { Method := "POST", URL := "http://localhost/items",
    Header := [("Content-Type", ["text/plain", "charset=utf-8"])],
    Body := some { pending := [104, 105], failure := none } }

/-- A JSON library that marshals nothing: every `SaveRequest` fails. -/
def failingJSON : EncodingJSON := tableJSON []

/-- The record of `postRequest` sent through `svcClient`. -/
def postRecord : LoggedRequest :=
  completedRecord svcClient 1000 "00ff00ff00ff00ff" 25 postRequest
    (stubHTTP (sentRequest postRequest))

/-- JSON library for `postRecord`. -/
def postJSON : EncodingJSON := tableJSON [(postRecord, [1])]

/-- A GET request to the host that `stubHTTP` cannot dial. -/
def unreachableRequest : Request :=
  { Method := "GET", URL := "http://unreachable/", Header := [], Body := none }

/-- A client with logging disabled and no storage. -/
def silentClient : Client :=
  { httpClient := stubHTTP, namespace_ := "svc", enabled := false, storage := none }

/-- A header map with a repeated header, a single header and a header without
values. -/
def sampleHeader : Header :=
  [("Accept", ["text/html", "application/json"]), ("X-Trace", ["t1"]), ("X-Empty", [])]

/-- An environment in which `storage.New` succeeds. -/
def homeEnv : Env := { homeDir := .ok "/home/user", canMkdir := true }

/-- An environment in which `storage.New` fails: there is no home directory. -/
def noHomeEnv : Env := { homeDir := .error "$HOME is not defined", canMkdir := true }

/-- The configuration `{Namespace: "svc", Enabled: true}`. -/
def svcConfig : Config := { Namespace := "svc", Enabled := true }

/-- A client created with logging disabled and an empty namespace. -/
def freshClient : Client :=
  { httpClient := stubHTTP, namespace_ := "default", enabled := false, storage := none }

/-- A sequence of mutator calls: a `SetEnabled(true)` that fails, a change of
namespace, a `SetEnabled(true)` that succeeds, a `SetEnabled(false)` and a last
`SetEnabled(true)` made when `storage.New` would fail. -/
def sampleOps : List ClientOp :=
  [.setEnabled noHomeEnv true, .setNamespace "svc", .setEnabled homeEnv true,
   .setEnabled homeEnv false, .setEnabled noHomeEnv true]

/-- A record whose namespace leads out of the logs directory. -/
def upRecord : LoggedRequest := sampleRecord "../x" "id1" 1

/-- JSON library for `upRecord`. -/
def upJSON : EncodingJSON := tableJSON [(upRecord, [1])]

/-- A logs directory that accepts new files and cannot be listed. -/
def writeOnlyLogs : LogsDir := .present false true []

/-- A logs directory that holds `svc_id1.json` as a file that can be written and
cannot be read. -/
def unreadableLogs : LogsDir :=
  .present true true
    [{ Name := "svc_id1.json", IsDir := false, content := none, removable := true,
       writable := true }]

/-! ## Lemmas: sorting -/

theorem sinkLeft_perm {α : Type} (less : α → α → Bool) (x : α) (l : List α) :
    (sinkLeft less x l).Perm (x :: l) := by
  induction l with
  | nil => simp [sinkLeft]
  | cons y rest ih =>
    unfold sinkLeft
    split
    · exact (List.Perm.cons y ih).trans (List.Perm.swap x y rest)
    · exact List.Perm.refl _

theorem foldl_sinkLeft_perm {α : Type} (less : α → α → Bool) (xs acc : List α) :
    (xs.foldl (fun sorted x => sinkLeft less x sorted) acc).Perm (xs.reverse ++ acc) := by
  induction xs generalizing acc with
  | nil => simp
  | cons x rest ih =>
    simp only [List.foldl_cons, List.reverse_cons, List.append_assoc, List.singleton_append]
    exact (ih _).trans (List.Perm.append_left _ (sinkLeft_perm less x acc))

theorem sortSlice_perm {α : Type} (less : α → α → Bool) (xs : List α) :
    (sortSlice less xs).Perm xs := by
  unfold sortSlice
  refine (List.reverse_perm _).trans ?_
  have h := foldl_sinkLeft_perm less xs []
  simp only [List.append_nil] at h
  exact h.trans (List.reverse_perm xs)

theorem sinkLeft_sorted {α : Type} (less : α → α → Bool)
    (hasym : ∀ a b, less a b = true → less b a = false)
    (htrans : ∀ a b c, less a b = false → less b c = false → less a c = false)
    (x : α) (l : List α) (hl : l.Pairwise (fun a b => less a b = false)) :
    (sinkLeft less x l).Pairwise (fun a b => less a b = false) := by
  induction l with
  | nil => simp [sinkLeft]
  | cons y rest ih =>
    rw [List.pairwise_cons] at hl
    unfold sinkLeft
    split
    · rename_i hxy
      rw [List.pairwise_cons]
      refine ⟨?_, ih hl.2⟩
      intro z hz
      rcases List.mem_cons.mp ((sinkLeft_perm less x rest).subset hz) with rfl | hz'
      · exact hasym _ _ hxy
      · exact hl.1 z hz'
    · rename_i hxy
      have hxy' : less x y = false := by simpa using hxy
      rw [List.pairwise_cons]
      refine ⟨?_, List.pairwise_cons.mpr hl⟩
      intro z hz
      rcases List.mem_cons.mp hz with rfl | hz'
      · exact hxy'
      · exact htrans _ _ _ hxy' (hl.1 z hz')

theorem sortSlice_sorted {α : Type} (less : α → α → Bool)
    (hasym : ∀ a b, less a b = true → less b a = false)
    (htrans : ∀ a b c, less a b = false → less b c = false → less a c = false)
    (xs : List α) : (sortSlice less xs).Pairwise (fun a b => less b a = false) := by
  unfold sortSlice
  rw [List.pairwise_reverse]
  suffices h : ∀ acc : List α, acc.Pairwise (fun a b => less a b = false) →
      (xs.foldl (fun sorted x => sinkLeft less x sorted) acc).Pairwise
        (fun a b => less a b = false) from h [] List.Pairwise.nil
  induction xs with
  | nil => intro acc h; simpa using h
  | cons x rest ih =>
    intro acc h
    simp only [List.foldl_cons]
    exact ih _ (sinkLeft_sorted less hasym htrans x acc h)

theorem sortSlice_nil {α : Type} (less : α → α → Bool) : sortSlice less ([] : List α) = [] := rfl

theorem newestFirst_sorted (xs : List LoggedRequest) :
    (sortSlice newestFirst xs).Pairwise (fun a b => ¬ a.Timestamp < b.Timestamp) := by
  have h := sortSlice_sorted newestFirst
    (by intro a b h; simp only [newestFirst, decide_eq_true_eq, decide_eq_false_iff_not] at *; omega)
    (by intro a b c h1 h2; simp only [newestFirst, decide_eq_false_iff_not] at *; omega) xs
  refine h.imp ?_
  intro a b hab
  simpa [newestFirst] using hab

/-! ## Lemmas: the read loops -/

theorem loadLoop_eq_decodedRecords (json : EncodingJSON) (selected : DirEntry → Bool)
    (entries : List DirEntry) :
    loadLoop json selected entries = decodedRecords json selected entries := by
  induction entries with
  | nil => rfl
  | cons e rest ih =>
    unfold loadLoop decodedRecords
    unfold decodedRecords at ih
    cases hs : selected e with
    | false => simp [hs, ih]
    | true =>
      simp only [hs, Bool.not_true, Bool.false_eq_true, ↓reduceIte, List.filter_cons_of_pos]
      cases hc : e.content with
      | none => simp [ReadFile, hc, decodeEntry, ih]
      | some data =>
        cases hd : json.Unmarshal data with
        | error err => simp [ReadFile, hc, FromJSON, hd, decodeEntry, ih]
        | ok req => simp [ReadFile, hc, FromJSON, hd, decodeEntry, ih]

theorem mem_decodedRecords (json : EncodingJSON) (selected : DirEntry → Bool)
    (entries : List DirEntry) (r : LoggedRequest) :
    r ∈ decodedRecords json selected entries ↔
      ∃ e ∈ entries, selected e = true ∧ decodeEntry json e = some r := by
  simp only [decodedRecords, List.mem_filterMap, List.mem_filter]
  constructor
  · rintro ⟨e, ⟨he, hs⟩, hd⟩; exact ⟨e, he, hs, hd⟩
  · rintro ⟨e, he, hs, hd⟩; exact ⟨e, ⟨he, hs⟩, hd⟩

/-! ## Lemmas: file names -/

theorem HasPrefix_iff (s p : String) : HasPrefix s p = true ↔ p.data <+: s.data := by
  unfold HasPrefix
  exact List.isPrefixOf_iff_prefix

theorem HasSuffix_iff (s p : String) : HasSuffix s p = true ↔ p.data <:+ s.data := by
  unfold HasSuffix
  exact List.isSuffixOf_iff_suffix

theorem fileName_data (req : LoggedRequest) :
    (fileName req).data = req.Namespace.data ++ '_' :: (req.ID.data ++ RequestSuffix.data) := by
  simp [fileName, String.data_append]

theorem fileName_hasPrefix (req : LoggedRequest) :
    HasPrefix (fileName req) (req.Namespace ++ "_") = true := by
  rw [HasPrefix_iff, fileName_data]
  refine ⟨req.ID.data ++ RequestSuffix.data, ?_⟩
  simp [String.data_append]

theorem fileName_hasSuffix (req : LoggedRequest) :
    HasSuffix (fileName req) RequestSuffix = true := by
  rw [HasSuffix_iff, fileName_data]
  refine ⟨req.Namespace.data ++ '_' :: req.ID.data, ?_⟩
  simp

theorem fileName_ne (a b : LoggedRequest) (hns : a.Namespace = b.Namespace)
    (hid : a.ID ≠ b.ID) : fileName a ≠ fileName b := by
  intro h
  have hd := congrArg String.data h
  rw [fileName_data, fileName_data, hns] at hd
  have h1 := List.append_cancel_left hd
  have h2 : a.ID.data ++ RequestSuffix.data = b.ID.data ++ RequestSuffix.data := by
    simpa using h1
  have h3 := List.append_cancel_right h2
  exact hid (String.ext h3)

theorem splitPath_of_no_separator (cs : List Char) (h : '/' ∉ cs) : splitPath cs = [cs] := by
  induction cs with
  | nil => rfl
  | cons c rest ih =>
    simp only [List.mem_cons, not_or] at h
    have hc : c ≠ '/' := fun e => h.1 e.symm
    simp [splitPath, hc, ih h.2]

/-- A name without separator that is not empty, `.` or `..` is an entry of the
logs directory. -/
theorem resolvePath_entry (name : String) (hsep : '/' ∉ name.data)
    (h0 : name.data ≠ []) (h1 : name.data ≠ ['.']) (h2 : name.data ≠ ['.', '.']) :
    resolvePath name = .entry name := by
  unfold resolvePath
  simp only [splitPath_of_no_separator name.data hsep, List.foldl_cons, List.foldl_nil,
    cleanStep, h0, h1, h2, or_self, ↓reduceIte]
  simp

theorem fileName_mem_underscore (req : LoggedRequest) : '_' ∈ (fileName req).data := by
  rw [fileName_data]
  simp

theorem resolvePath_fileName (req : LoggedRequest) (hsep : '/' ∉ (fileName req).data) :
    resolvePath (fileName req) = .entry (fileName req) := by
  have hu := fileName_mem_underscore req
  apply resolvePath_entry _ hsep
  · intro h; rw [h] at hu; exact absurd hu (by decide)
  · intro h; rw [h] at hu; exact absurd hu (by decide)
  · intro h; rw [h] at hu; exact absurd hu (by decide)

/-- The file name has no separator when the namespace and the id have none. -/
theorem fileName_no_separator (req : LoggedRequest) (hns : '/' ∉ req.Namespace.data)
    (hid : '/' ∉ req.ID.data) : '/' ∉ (fileName req).data := by
  rw [fileName_data]
  simp only [List.mem_append, List.mem_cons, not_or]
  refine ⟨hns, by decide, hid, ?_⟩
  decide

/-- For a file name without separator, `SaveRequest` writes the entry of that
name. -/
theorem SaveRequest_entry (json : EncodingJSON) (fs : LogsDir) (req : LoggedRequest)
    (hsep : '/' ∉ (fileName req).data) :
    SaveRequest json fs req =
      match json.Marshal req with
      | .error err => (fs, some ("failed to marshal request: " ++ err))
      | .ok data => writeEntry fs (fileName req) data := by
  unfold SaveRequest ToJSON WriteFile
  cases json.Marshal req with
  | error err => rfl
  | ok data => simp only [resolvePath_fileName req hsep]

/-! ## Lemmas: writing files -/

theorem insertEntry_perm (e : DirEntry) (l : List DirEntry) :
    (insertEntry e l).Perm (e :: l) := by
  induction l with
  | nil => simp [insertEntry]
  | cons x rest ih =>
    unfold insertEntry
    split
    · exact List.Perm.refl _
    · exact (List.Perm.cons x ih).trans (List.Perm.swap e x rest)

theorem decodedRecords_perm (json : EncodingJSON) (selected : DirEntry → Bool)
    {l₁ l₂ : List DirEntry} (h : l₁.Perm l₂) :
    (decodedRecords json selected l₁).Perm (decodedRecords json selected l₂) := by
  unfold decodedRecords
  exact (h.filter selected).filterMap _

/-- Saving a record whose file is not there yet, under a name without separator
and into a directory that accepts new files, adds one readable regular file
holding the record's JSON. -/
theorem SaveRequest_new (json : EncodingJSON) (l : Bool) (es : List DirEntry)
    (req : LoggedRequest) (data : Bytes) (hm : json.Marshal req = .ok data)
    (hsep : '/' ∉ (fileName req).data)
    (hnew : ∀ e ∈ es, e.Name ≠ fileName req) :
    ∃ es', SaveRequest json (.present l true es) req = (.present l true es', none) ∧
      es'.Perm (plainFile (fileName req) data :: es) := by
  have hfind : es.find? (fun e => e.Name = fileName req) = none := by
    rw [List.find?_eq_none]
    intro e he
    simpa using hnew e he
  refine ⟨insertEntry (plainFile (fileName req) data) es, ?_, insertEntry_perm _ _⟩
  rw [SaveRequest_entry json _ req hsep]
  simp [hm, writeEntry, hfind, plainFile]

theorem sorted_three (l : List LoggedRequest) (a b c : LoggedRequest)
    (hab : a.Timestamp < b.Timestamp) (hbc : b.Timestamp < c.Timestamp)
    (hperm : l.Perm [c, b, a])
    (hsorted : l.Pairwise (fun x y => ¬ x.Timestamp < y.Timestamp)) :
    l = [c, b, a] := by
  have hlen : l.length = 3 := by simpa using hperm.length_eq
  have hs1 : (l.map LoggedRequest.Timestamp).Sorted (· ≥ ·) := by
    rw [List.Sorted, List.pairwise_map]
    exact hsorted.imp (fun h => by omega)
  have hs2 : ([c, b, a].map LoggedRequest.Timestamp).Sorted (· ≥ ·) := by
    simp only [List.map_cons, List.map_nil, List.Sorted, List.pairwise_cons, List.mem_cons,
      List.mem_singleton, List.not_mem_nil, List.Pairwise.nil]
    refine ⟨?_, ?_, ?_, trivial⟩
    · intro t ht; rcases ht with rfl | rfl | h
      · omega
      · omega
      · exact absurd h (by simp)
    · intro t ht; rcases ht with rfl | h
      · omega
      · exact absurd h (by simp)
    · intro t ht; exact absurd ht (by simp)
  have hm := List.eq_of_perm_of_sorted (hperm.map LoggedRequest.Timestamp) hs1 hs2
  match l, hlen with
  | [x, y, z], _ =>
    simp only [List.map_cons, List.map_nil, List.cons.injEq, and_true] at hm
    obtain ⟨hxt, hyt, hzt⟩ := hm
    have hx : x ∈ [c, b, a] := hperm.subset (by simp)
    have hy : y ∈ [c, b, a] := hperm.subset (by simp)
    have hz : z ∈ [c, b, a] := hperm.subset (by simp)
    simp only [List.mem_cons, List.mem_singleton, List.not_mem_nil, or_false] at hx hy hz
    have hx' : x = c := by
      rcases hx with h | h | h
      · exact h
      · have := congrArg LoggedRequest.Timestamp h; omega
      · have := congrArg LoggedRequest.Timestamp h; omega
    have hy' : y = b := by
      rcases hy with h | h | h
      · have := congrArg LoggedRequest.Timestamp h; omega
      · exact h
      · have := congrArg LoggedRequest.Timestamp h; omega
    have hz' : z = a := by
      rcases hz with h | h | h
      · have := congrArg LoggedRequest.Timestamp h; omega
      · have := congrArg LoggedRequest.Timestamp h; omega
      · exact h
    rw [hx', hy', hz']

theorem matchesNamespace_plainFile (req : LoggedRequest) (data : Bytes) :
    matchesNamespace (req.Namespace ++ "_") (plainFile (fileName req) data) = true := by
  simp [matchesNamespace, plainFile, fileName_hasPrefix, fileName_hasSuffix]

theorem decodeEntry_plainFile (json : EncodingJSON) (name : String) (data : Bytes)
    (req : LoggedRequest) (hu : json.Unmarshal data = .ok req) :
    decodeEntry json (plainFile name data) = some req := by
  simp [decodeEntry, plainFile, hu]

/-! ## Lemmas: `LastIndex` and the namespace of a file name -/

theorem lastIndexFrom_spec (c : Char) (xs : List Char) (i : Nat) (acc : Int) :
    lastIndexFrom c xs i acc = acc ∨
      ∃ k, xs[k]? = some c ∧ lastIndexFrom c xs i acc = ((i + k : Nat) : Int) := by
  induction xs generalizing i acc with
  | nil => left; rfl
  | cons x rest ih =>
    unfold lastIndexFrom
    rcases ih (i + 1) (if x = c then (i : Int) else acc) with h | ⟨k, hk, h⟩
    · by_cases hx : x = c
      · right
        refine ⟨0, by simp [hx], ?_⟩
        rw [h]; simp [hx]
      · left
        rw [h]; simp [hx]
    · right
      refine ⟨k + 1, by simpa using hk, ?_⟩
      rw [h]
      congr 1
      omega

theorem LastIndex_spec (s : String) (c : Char) (h : LastIndex s c > 0) :
    ∃ k : Nat, 0 < k ∧ LastIndex s c = (k : Int) ∧ s.data[k]? = some c := by
  unfold LastIndex at *
  rcases lastIndexFrom_spec c s.data 0 (-1) with h' | ⟨k, hk, h'⟩
  · omega
  · refine ⟨k, ?_, by simpa using h', hk⟩
    rw [h'] at h
    simpa using h

theorem sliceTo_hasPrefix (name : String) (h : LastIndex name '_' > 0) :
    HasPrefix name (sliceTo name (LastIndex name '_').toNat ++ "_") = true := by
  obtain ⟨k, _, hk, hget⟩ := LastIndex_spec name '_' h
  rw [hk, Int.toNat_ofNat, HasPrefix_iff]
  have hlt : k < name.data.length := by
    by_contra hge
    rw [List.getElem?_eq_none (by omega)] at hget
    exact absurd hget (by simp)
  have hc : name.data[k] = '_' := by
    rw [List.getElem?_eq_getElem hlt] at hget
    exact Option.some.inj hget
  refine ⟨name.data.drop (k + 1), ?_⟩
  have h1 : (sliceTo name k ++ "_").data = name.data.take k ++ ['_'] := by
    simp [sliceTo, String.data_append]
  rw [h1, List.append_assoc, List.singleton_append, ← hc, List.getElem_cons_drop,
    List.take_append_drop]

theorem matchesNamespace_isRequestFile (pfx : String) (e : DirEntry)
    (h : matchesNamespace pfx e = true) : isRequestFile e = true := by
  simp only [matchesNamespace, isRequestFile, Bool.not_eq_true', Bool.or_eq_false_iff,
    Bool.not_eq_false'] at *
  exact ⟨h.1.1, h.2⟩

theorem matchesNamespace_of_lastIndex (e : DirEntry) (hreq : isRequestFile e = true)
    (h : LastIndex e.Name '_' > 0) :
    matchesNamespace (sliceTo e.Name (LastIndex e.Name '_').toNat ++ "_") e = true := by
  simp only [matchesNamespace, isRequestFile, Bool.not_eq_true', Bool.or_eq_false_iff,
    Bool.not_eq_false'] at *
  exact ⟨⟨hreq.1, sliceTo_hasPrefix e.Name h⟩, hreq.2⟩

theorem mem_setAdd (keys : List String) (k x : String) :
    x ∈ setAdd keys k ↔ x ∈ keys ∨ x = k := by
  unfold setAdd
  split
  · constructor
    · intro h; exact Or.inl h
    · rintro (h | rfl)
      · exact h
      · assumption
  · simp

theorem mem_namespaceLoop (es : List DirEntry) (acc : List String) (x : String) :
    x ∈ namespaceLoop es acc ↔ x ∈ acc ∨
      ∃ e ∈ es, isRequestFile e = true ∧ LastIndex e.Name '_' > 0 ∧
        x = sliceTo e.Name (LastIndex e.Name '_').toNat := by
  induction es generalizing acc with
  | nil => simp [namespaceLoop]
  | cons e rest ih =>
    unfold namespaceLoop
    by_cases hreq : isRequestFile e = true
    · by_cases hidx : LastIndex e.Name '_' > 0
      · simp only [hreq, Bool.not_true, Bool.false_eq_true, ↓reduceIte, hidx, ih, mem_setAdd,
          List.mem_cons, exists_eq_or_imp, true_and]
        tauto
      · simp only [hreq, Bool.not_true, Bool.false_eq_true, ↓reduceIte, hidx, ih,
          List.mem_cons, exists_eq_or_imp, true_and, false_and, false_or]
    · simp only [hreq, Bool.not_false, ↓reduceIte, ih, List.mem_cons, exists_eq_or_imp,
        false_and, false_or]
      simp at hreq
      simp [hreq]

/-! ## Lemmas: what the reads return -/

theorem mem_LoadRequests (json : EncodingJSON) (fs : LogsDir) (ns : String) (r : LoggedRequest) :
    r ∈ returned (LoadRequests json fs ns) ↔
      ∃ es, ReadDir fs = .ok es ∧
        ∃ e ∈ es, matchesNamespace (ns ++ "_") e = true ∧ decodeEntry json e = some r := by
  cases fs with
  | missing => simp [LoadRequests, ReadDir, returned]
  | present l c es =>
    cases l with
    | false => simp [LoadRequests, ReadDir, returned]
    | true =>
      simp only [LoadRequests, ReadDir, returned, Except.ok.injEq, exists_eq_left']
      rw [(sortSlice_perm _ _).mem_iff, loadLoop_eq_decodedRecords, mem_decodedRecords]

theorem mem_LoadAllRequests (json : EncodingJSON) (fs : LogsDir) (r : LoggedRequest) :
    r ∈ returned (LoadAllRequests json fs) ↔
      ∃ es, ReadDir fs = .ok es ∧
        ∃ e ∈ es, isRequestFile e = true ∧ decodeEntry json e = some r := by
  cases fs with
  | missing => simp [LoadAllRequests, ReadDir, returned]
  | present l c es =>
    cases l with
    | false => simp [LoadAllRequests, ReadDir, returned]
    | true =>
      simp only [LoadAllRequests, ReadDir, returned, Except.ok.injEq, exists_eq_left']
      rw [(sortSlice_perm _ _).mem_iff, loadLoop_eq_decodedRecords, mem_decodedRecords]

theorem mem_GetNamespaces (fs : LogsDir) (x : String) :
    x ∈ returned (GetNamespaces fs) ↔
      ∃ es, ReadDir fs = .ok es ∧
        ∃ e ∈ es, isRequestFile e = true ∧ LastIndex e.Name '_' > 0 ∧
          x = sliceTo e.Name (LastIndex e.Name '_').toNat := by
  cases fs with
  | missing => simp [GetNamespaces, ReadDir, returned]
  | present l c es =>
    cases l with
    | false => simp [GetNamespaces, ReadDir, returned]
    | true =>
      simp only [GetNamespaces, ReadDir, returned, Except.ok.injEq, exists_eq_left', sortStrings]
      rw [(sortSlice_perm _ _).mem_iff, mem_namespaceLoop]
      simp

/-! ## Lemmas: removing files -/

theorem clearLoop_ok (pfx : String) (es : List DirEntry) (l c : Bool) (cur : List DirEntry)
    (fs' : LogsDir) (h : clearLoop pfx es (.present l c cur) = (fs', none)) :
    ∃ cur', fs' = .present l c cur' ∧ (∀ x ∈ cur', x ∈ cur) ∧
      ∀ e ∈ es, matchesNamespace pfx e = true → ∀ x ∈ cur', x.Name ≠ e.Name := by
  induction es generalizing cur with
  | nil =>
    simp only [clearLoop, Prod.mk.injEq, and_true] at h
    exact ⟨cur, h.symm, fun x hx => hx, by simp⟩
  | cons e rest ih =>
    unfold clearLoop at h
    by_cases hm : matchesNamespace pfx e = true
    · simp only [hm, ↓reduceIte, Remove] at h
      cases hf : cur.find? (fun x => x.Name = e.Name) with
      | none => simp [hf] at h
      | some f =>
        simp only [hf] at h
        by_cases hr : f.removable = true
        · simp only [hr, ↓reduceIte] at h
          obtain ⟨cur', hfs, hsub, hnames⟩ := ih _ h
          refine ⟨cur', hfs, ?_, ?_⟩
          · intro x hx
            exact (List.mem_filter.mp (hsub x hx)).1
          · intro e' he' hm' x hx
            rcases List.mem_cons.mp he' with rfl | hrest
            · have := (List.mem_filter.mp (hsub x hx)).2
              simpa using this
            · exact hnames e' hrest hm' x hx
        · simp [hr] at h
    · simp only [hm, Bool.false_eq_true, ↓reduceIte] at h
      obtain ⟨cur', hfs, hsub, hnames⟩ := ih _ h
      refine ⟨cur', hfs, hsub, ?_⟩
      intro e' he' hm' x hx
      rcases List.mem_cons.mp he' with rfl | hrest
      · exact absurd hm' hm
      · exact hnames e' hrest hm' x hx

/-- After a `ClearNamespace(ns)` that returned no error, the directory is still
listable and none of its entries matches `ns_*.json`. -/
theorem ClearNamespace_ok (fs fs' : LogsDir) (ns : String)
    (h : ClearNamespace fs ns = (fs', none)) :
    ∃ c cur', fs' = .present true c cur' ∧
      ∀ x ∈ cur', matchesNamespace (ns ++ "_") x = false := by
  cases fs with
  | missing => simp [ClearNamespace, ReadDir] at h
  | present l c es =>
    cases l with
    | false => simp [ClearNamespace, ReadDir] at h
    | true =>
      simp only [ClearNamespace, ReadDir] at h
      obtain ⟨cur', hfs, hsub, hnames⟩ := clearLoop_ok _ es true c es fs' h
      refine ⟨c, cur', hfs, ?_⟩
      intro x hx
      by_contra hne
      have hm : matchesNamespace (ns ++ "_") x = true := by simpa using hne
      exact hnames x (hsub x hx) hm x hx rfl

theorem find_of_nodup (pre post : List DirEntry) (e : DirEntry)
    (h : ((pre ++ e :: post).map (fun x => x.Name)).Nodup) :
    (pre ++ e :: post).find? (fun x => x.Name = e.Name) = some e := by
  induction pre with
  | nil => simp
  | cons x rest ih =>
    simp only [List.cons_append, List.map_cons, List.nodup_cons] at h
    have hne : x.Name ≠ e.Name := by
      intro heq
      apply h.1
      rw [heq]
      simp
    simp only [List.cons_append, List.find?_cons, hne, decide_False]
    exact ih h.2

theorem filter_of_nodup (pre post : List DirEntry) (e : DirEntry)
    (h : ((pre ++ e :: post).map (fun x => x.Name)).Nodup) :
    (pre ++ e :: post).filter (fun x => x.Name ≠ e.Name) = pre ++ post := by
  have hmid : ∀ x ∈ pre ++ post, x.Name ≠ e.Name := by
    intro x hx heq
    rw [List.map_append, List.map_cons] at h
    have h' := List.nodup_middle.mp h
    rw [List.nodup_cons] at h'
    apply h'.1
    rw [← heq, ← List.map_append]
    exact List.mem_map_of_mem _ hx
  rw [List.filter_append, List.filter_cons]
  simp only [ne_eq, not_true_eq_false, decide_False, Bool.false_eq_true, ↓reduceIte]
  rw [← List.filter_append, List.filter_eq_self]
  intro x hx
  simpa using hmid x hx

theorem clearLoop_fail_fast (pfx : String) (l c : Bool) (pre post : List DirEntry)
    (bad : DirEntry) (kept : List DirEntry)
    (hnodup : ((kept ++ (pre ++ bad :: post)).map (fun x => x.Name)).Nodup)
    (hpre : ∀ e ∈ pre, matchesNamespace pfx e = true → e.removable = true)
    (hbad : matchesNamespace pfx bad = true) (hlock : bad.removable = false) :
    ∃ err, clearLoop pfx (pre ++ bad :: post) (.present l c (kept ++ (pre ++ bad :: post))) =
      (.present l c (kept ++ (pre.filter (fun e => !matchesNamespace pfx e) ++ bad :: post)),
       some err) := by
  induction pre generalizing kept with
  | nil =>
    simp only [List.nil_append] at hnodup ⊢
    have hf := find_of_nodup kept post bad hnodup
    refine ⟨"failed to remove file " ++ bad.Name ++ ": " ++
      ("remove " ++ bad.Name ++ ": operation not permitted"), ?_⟩
    simp [clearLoop, hbad, Remove, hf, hlock]
  | cons e rest ih =>
    have hpre' : ∀ e' ∈ rest, matchesNamespace pfx e' = true → e'.removable = true :=
      fun e' he' => hpre e' (List.mem_cons_of_mem _ he')
    by_cases hm : matchesNamespace pfx e = true
    · have hnd : ((kept ++ e :: (rest ++ bad :: post)).map (fun x => x.Name)).Nodup := by
        simpa using hnodup
      have hf := find_of_nodup kept (rest ++ bad :: post) e hnd
      have hflt := filter_of_nodup kept (rest ++ bad :: post) e hnd
      have hrm := hpre e (List.mem_cons_self _ _) hm
      have hnd' : ((kept ++ (rest ++ bad :: post)).map (fun x => x.Name)).Nodup := by
        rw [List.map_append, List.map_cons] at hnd
        have := (List.nodup_middle.mp hnd)
        rw [List.nodup_cons] at this
        simpa using this.2
      obtain ⟨err, herr⟩ := ih kept hnd' hpre'
      refine ⟨err, ?_⟩
      simp only [List.cons_append, clearLoop, hm, ↓reduceIte, Remove, hf, hrm, hflt,
        List.filter_cons, Bool.not_true, Bool.false_eq_true]
      exact herr
    · have hm' : matchesNamespace pfx e = false := by simpa using hm
      have hnd' : (((kept ++ [e]) ++ (rest ++ bad :: post)).map (fun x => x.Name)).Nodup := by
        simpa using hnodup
      obtain ⟨err, herr⟩ := ih (kept ++ [e]) hnd' hpre'
      refine ⟨err, ?_⟩
      simp only [List.cons_append, clearLoop, hm', Bool.false_eq_true, ↓reduceIte,
        List.filter_cons, Bool.not_false]
      simpa using herr

theorem mem_overwriteEntry (name : String) (data : Bytes) (es : List DirEntry) (e : DirEntry)
    (hne : e.Name ≠ name) : e ∈ overwriteEntry name data es ↔ e ∈ es := by
  induction es with
  | nil => simp [overwriteEntry]
  | cons x rest ih =>
    unfold overwriteEntry
    by_cases hx : x.Name = name
    · simp only [hx, ↓reduceIte, List.mem_cons]
      constructor
      · rintro (h | h)
        · exact absurd (by rw [h]) hne
        · exact Or.inr h
      · rintro (h | h)
        · exact absurd (by rw [h]; exact hx) hne
        · exact Or.inr h
    · simp only [hx, ↓reduceIte, List.mem_cons, ih]

theorem find_overwriteEntry (name : String) (data : Bytes) (es : List DirEntry) (f : DirEntry)
    (h : es.find? (fun x => x.Name = name) = some f) :
    (overwriteEntry name data es).find? (fun x => x.Name = name) =
      some { f with content := f.content.map (fun _ => data) } := by
  induction es with
  | nil => simp at h
  | cons x rest ih =>
    unfold overwriteEntry
    by_cases hx : x.Name = name
    · simp only [List.find?_cons, hx, decide_True, Option.some.injEq] at h
      subst h
      simp [hx]
    · simp only [List.find?_cons, hx, decide_False] at h
      simp only [hx, ↓reduceIte, List.find?_cons, decide_False]
      exact ih h

theorem find_insertEntry (e : DirEntry) (es : List DirEntry)
    (h : es.find? (fun x => x.Name = e.Name) = none) :
    (insertEntry e es).find? (fun x => x.Name = e.Name) = some e := by
  induction es with
  | nil => simp [insertEntry]
  | cons x rest ih =>
    have hx : x.Name ≠ e.Name := by
      intro heq
      simp [List.find?_cons, heq] at h
    have hrest : rest.find? (fun x => x.Name = e.Name) = none := by
      simpa [List.find?_cons, hx] using h
    unfold insertEntry
    split
    · simp
    · simp only [List.find?_cons, hx, decide_False]
      exact ih hrest

theorem decodeEntry_eq_some (json : EncodingJSON) (e : DirEntry) (r : LoggedRequest) :
    decodeEntry json e = some r ↔
      ∃ data, ReadFile e = .ok data ∧ FromJSON json data = .ok r := by
  unfold decodeEntry ReadFile FromJSON
  cases hc : e.content with
  | none => simp
  | some data =>
    cases hd : json.Unmarshal data with
    | error err => simp [hd]
    | ok req => simp [hd]

theorem decodedRecords_skip (json : EncodingJSON) (selected : DirEntry → Bool)
    (pre post : List DirEntry) (bad : DirEntry) (hbad : decodeEntry json bad = none) :
    decodedRecords json selected (pre ++ bad :: post) =
      decodedRecords json selected (pre ++ post) := by
  unfold decodedRecords
  rw [List.filter_append, List.filter_append, List.filter_cons]
  split <;> simp [List.filterMap_append, List.filterMap_cons, hbad]

theorem mem_find (es : List DirEntry) (name : String) (f : DirEntry)
    (h : es.find? (fun e => e.Name = name) = some f) : f ∈ es ∧ f.Name = name := by
  refine ⟨List.mem_of_find?_eq_some h, ?_⟩
  have := List.find?_some h
  simpa using this

/-- Writing the entry `name` leaves the entries of another name as they are. -/
theorem writeEntry_others (fs : LogsDir) (name : String) (data : Bytes) (e : DirEntry)
    (hne : e.Name ≠ name) :
    e ∈ (writeEntry fs name data).1.entries ↔ e ∈ fs.entries := by
  unfold writeEntry
  cases fs with
  | missing => rfl
  | present l c es =>
    simp only
    cases hf : es.find? (fun e => e.Name = name) with
    | none =>
      cases c with
      | false => simp [LogsDir.entries]
      | true =>
        simp only [↓reduceIte, LogsDir.entries]
        rw [(insertEntry_perm _ _).mem_iff, List.mem_cons]
        constructor
        · rintro (h | h)
          · exact absurd (by rw [h]) hne
          · exact h
        · exact Or.inr
    | some f =>
      simp only
      split
      · rfl
      · split
        · split
          · exact mem_overwriteEntry _ _ _ _ hne
          · exact mem_overwriteEntry _ _ _ _ hne
        · rfl

/-- After a write of the entry `name` that returned no error, the directory has
the flags it had and a regular file `name`, which holds `data` unless it was
there before and could not be read. -/
theorem writeEntry_ok (fs fs' : LogsDir) (name : String) (data : Bytes)
    (h : writeEntry fs name data = (fs', none)) :
    ∃ l c es es' f, fs = .present l c es ∧ fs' = .present l c es' ∧
      es'.find? (fun e => e.Name = name) = some f ∧ f.IsDir = false ∧
      (f.content = some data ∨
        (f.content = none ∧
          ∃ old, es.find? (fun e => e.Name = name) = some old ∧ old.content = none)) := by
  unfold writeEntry at h
  cases fs with
  | missing => simp at h
  | present l c es =>
    simp only at h
    cases hf : es.find? (fun e => e.Name = name) with
    | none =>
      rw [hf] at h
      cases c with
      | false => simp at h
      | true =>
        simp only [↓reduceIte, Prod.mk.injEq, and_true] at h
        have hins := find_insertEntry
          { Name := name, IsDir := false, content := some data, removable := true,
            writable := true } es hf
        exact ⟨l, true, es, _, _, rfl, h.symm, hins, rfl, Or.inl rfl⟩
    | some f =>
      rw [hf] at h
      simp only at h
      by_cases hd : f.IsDir = true
      · simp [hd] at h
      · have hd' : f.IsDir = false := by simpa using hd
        by_cases hw : f.writable = true
        · by_cases hwf : f.writeFails = true
          · simp [hd', hw, hwf] at h
          · have hwf' : f.writeFails = false := by simpa using hwf
            simp only [hd', Bool.false_eq_true, ↓reduceIte, hw, hwf', Prod.mk.injEq,
              and_true] at h
            have hov := find_overwriteEntry name data es f hf
            refine ⟨l, c, es, _, _, rfl, h.symm, hov, hd', ?_⟩
            cases hc : f.content with
            | none => exact Or.inr ⟨by simp [hc], f, hf, hc⟩
            | some old => exact Or.inl (by simp [hc])
        · have hw' : f.writable = false := by simpa using hw
          simp [hd', hw'] at h

/-- A `SaveRequest` that returned no error under a file name without separator
left a regular file of that name, which holds the JSON of the record unless it
was there before and could not be read. -/
theorem SaveRequest_ok (json : EncodingJSON) (fs fs' : LogsDir) (req : LoggedRequest)
    (hsep : '/' ∉ (fileName req).data)
    (h : SaveRequest json fs req = (fs', none)) :
    ∃ data l c es es' f, json.Marshal req = .ok data ∧ fs = .present l c es ∧
      fs' = .present l c es' ∧
      es'.find? (fun e => e.Name = fileName req) = some f ∧ f.IsDir = false ∧
      (f.content = some data ∨
        (f.content = none ∧
          ∃ old, es.find? (fun e => e.Name = fileName req) = some old ∧
            old.content = none)) := by
  rw [SaveRequest_entry json fs req hsep] at h
  cases hj : json.Marshal req with
  | error err => simp [hj] at h
  | ok data =>
    rw [hj] at h
    obtain ⟨l, c, es, es', f, h1, h2, h3, h4, h5⟩ := writeEntry_ok fs fs' _ data h
    exact ⟨data, l, c, es, es', f, rfl, h1, h2, h3, h4, h5⟩

/-! ## Storage: reads by namespace -/

/-- C1 (defect of the code, at a concrete input): after `SaveRequest` of one
record of namespace `svc_v2` into an empty logs directory, which writes the file
`svc_v2_a1.json` and returns no error, `LoadRequests("svc")` returns that record,
although its `Namespace` field is `svc_v2` and not `svc`. -/
theorem C1_LoadRequests_returns_foreign_namespace :
    fileName svcV2Record = "svc_v2_a1.json" ∧
    (SaveRequest svcV2JSON emptyLogs svcV2Record).2 = none ∧
    LoadRequests svcV2JSON (SaveRequest svcV2JSON emptyLogs svcV2Record).1 "svc"
      = .ok [svcV2Record] ∧
    svcV2Record.Namespace = "svc_v2" ∧
    svcV2Record.Namespace ≠ "svc" := by
  decide

/-- C2: whenever `LoadRequests(ns)` (resp. `LoadAllRequests`) returns a sequence,
it is a permutation of the successfully decoded records of the selected files
and no record in it has a `Timestamp` strictly after that of a record preceding
it; both return a sequence unless the directory listing fails with an error
other than "does not exist". In particular, three records of namespace `svc`
with distinct ids that hold no path separator and timestamps T1 < T2 < T3, that
the JSON library round-trips, saved one after the other into an empty logs
directory, are returned by `LoadRequests("svc")` as `[T3, T2, T1]`. -/
theorem C2_load_sorted_permutation (json : EncodingJSON) (fs : LogsDir) (ns : String) :
    (∀ rs, LoadRequests json fs ns = .ok rs →
      rs.Perm (decodedRecords json (matchesNamespace (ns ++ "_")) fs.entries) ∧
      rs.Pairwise (fun a b => ¬ a.Timestamp < b.Timestamp)) ∧
    (∀ rs, LoadAllRequests json fs = .ok rs →
      rs.Perm (decodedRecords json isRequestFile fs.entries) ∧
      rs.Pairwise (fun a b => ¬ a.Timestamp < b.Timestamp)) ∧
    (ReadDir fs ≠ .error .other →
      (∃ rs, LoadRequests json fs ns = .ok rs) ∧ ∃ rs, LoadAllRequests json fs = .ok rs) ∧
    (∀ (r1 r2 r3 : LoggedRequest) (d1 d2 d3 : Bytes),
      r1.Namespace = "svc" → r2.Namespace = "svc" → r3.Namespace = "svc" →
      r1.Timestamp < r2.Timestamp → r2.Timestamp < r3.Timestamp →
      r1.ID ≠ r2.ID → r1.ID ≠ r3.ID → r2.ID ≠ r3.ID →
      '/' ∉ r1.ID.data → '/' ∉ r2.ID.data → '/' ∉ r3.ID.data →
      json.Marshal r1 = .ok d1 → json.Marshal r2 = .ok d2 → json.Marshal r3 = .ok d3 →
      json.Unmarshal d1 = .ok r1 → json.Unmarshal d2 = .ok r2 → json.Unmarshal d3 = .ok r3 →
      LoadRequests json
        (SaveRequest json (SaveRequest json (SaveRequest json emptyLogs r1).1 r2).1 r3).1 "svc"
        = .ok [r3, r2, r1]) := by
  refine ⟨?_, ?_, ?_, ?_⟩
  · intro rs h
    cases fs with
    | missing =>
      simp only [LoadRequests, ReadDir, Except.ok.injEq] at h
      subst h
      simp [LogsDir.entries, decodedRecords]
    | present l c es =>
      cases l with
      | false => simp [LoadRequests, ReadDir] at h
      | true =>
        simp only [LoadRequests, ReadDir, Except.ok.injEq] at h
        subst h
        rw [loadLoop_eq_decodedRecords]
        exact ⟨sortSlice_perm _ _, newestFirst_sorted _⟩
  · intro rs h
    cases fs with
    | missing =>
      simp only [LoadAllRequests, ReadDir, Except.ok.injEq] at h
      subst h
      simp [LogsDir.entries, decodedRecords]
    | present l c es =>
      cases l with
      | false => simp [LoadAllRequests, ReadDir] at h
      | true =>
        simp only [LoadAllRequests, ReadDir, Except.ok.injEq] at h
        subst h
        rw [loadLoop_eq_decodedRecords]
        exact ⟨sortSlice_perm _ _, newestFirst_sorted _⟩
  · intro h
    cases fs with
    | missing => exact ⟨⟨[], rfl⟩, ⟨[], rfl⟩⟩
    | present l c es =>
      cases l with
      | false => exact absurd rfl h
      | true => exact ⟨⟨_, rfl⟩, ⟨_, rfl⟩⟩
  · intro r1 r2 r3 d1 d2 d3 hn1 hn2 hn3 h12 h23 i12 i13 i23 s1 s2 s3 hm1 hm2 hm3 hu1 hu2 hu3
    have hsvc : '/' ∉ ("svc" : String).data := by decide
    have hsep1 := fileName_no_separator r1 (hn1 ▸ hsvc) s1
    have hsep2 := fileName_no_separator r2 (hn2 ▸ hsvc) s2
    have hsep3 := fileName_no_separator r3 (hn3 ▸ hsvc) s3
    obtain ⟨es1, hs1, p1⟩ := SaveRequest_new json true [] r1 d1 hm1 hsep1 (by simp)
    have hnew2 : ∀ e ∈ es1, e.Name ≠ fileName r2 := by
      intro e he
      have he' := p1.subset he
      simp only [List.mem_singleton] at he'
      subst he'
      exact fileName_ne r1 r2 (hn1.trans hn2.symm) i12
    obtain ⟨es2, hs2, p2⟩ := SaveRequest_new json true es1 r2 d2 hm2 hsep2 hnew2
    have hnew3 : ∀ e ∈ es2, e.Name ≠ fileName r3 := by
      intro e he
      rcases List.mem_cons.mp (p2.subset he) with rfl | he1
      · exact fileName_ne r2 r3 (hn2.trans hn3.symm) i23
      · have he' := p1.subset he1
        simp only [List.mem_singleton] at he'
        subst he'
        exact fileName_ne r1 r3 (hn1.trans hn3.symm) i13
    obtain ⟨es3, hs3, p3⟩ := SaveRequest_new json true es2 r3 d3 hm3 hsep3 hnew3
    have hs1' : SaveRequest json emptyLogs r1 = (.present true true es1, none) := hs1
    rw [hs1']
    simp only []
    rw [hs2]
    simp only []
    rw [hs3]
    simp only [LoadRequests, ReadDir]
    rw [loadLoop_eq_decodedRecords]
    have hperm : es3.Perm
        [plainFile (fileName r3) d3, plainFile (fileName r2) d2, plainFile (fileName r1) d1] :=
      p3.trans (List.Perm.cons _ (p2.trans (List.Perm.cons _ p1)))
    have hdec : decodedRecords json (matchesNamespace ("svc" ++ "_"))
        [plainFile (fileName r3) d3, plainFile (fileName r2) d2, plainFile (fileName r1) d1]
        = [r3, r2, r1] := by
      have m1 := matchesNamespace_plainFile r1 d1
      have m2 := matchesNamespace_plainFile r2 d2
      have m3 := matchesNamespace_plainFile r3 d3
      rw [hn1] at m1
      rw [hn2] at m2
      rw [hn3] at m3
      have hpf : ("svc" ++ "_" : String) = "svc_" := by decide
      rw [hpf] at m1 m2 m3
      simp [decodedRecords, m1, m2, m3, decodeEntry_plainFile json _ _ _ hu1,
        decodeEntry_plainFile json _ _ _ hu2, decodeEntry_plainFile json _ _ _ hu3]
    have hp := (sortSlice_perm newestFirst _).trans
      (decodedRecords_perm json (matchesNamespace ("svc" ++ "_")) hperm)
    rw [hdec] at hp
    rw [sorted_three _ r1 r2 r3 h12 h23 hp (newestFirst_sorted _)]

/-- C2, the scenario at concrete records with timestamps 10 < 20 < 30. -/
theorem C2_load_sorted_permutation_witness :
    LoadRequests svcJSON
      (SaveRequest svcJSON (SaveRequest svcJSON (SaveRequest svcJSON emptyLogs svcT1).1 svcT2).1
        svcT3).1 "svc" = .ok [svcT3, svcT2, svcT1] :=
  (C2_load_sorted_permutation svcJSON emptyLogs "svc").2.2.2 svcT1 svcT2 svcT3 [1] [2] [3]
    (by decide) (by decide) (by decide) (by decide) (by decide) (by decide) (by decide)
    (by decide) (by decide) (by decide) (by decide) (by decide) (by decide) (by decide)
    (by decide) (by decide) (by decide)

/-- C3 fails as stated: after a record of empty namespace is saved (file
`_a1.json`), `LoadAllRequests` returns the id `a1`, `GetNamespaces` returns no
namespace, so the union over its namespaces of the ids of `LoadRequests` is
empty. -/
theorem C3_union_counterexample :
    ¬ (∀ id, id ∈ recordIDs (LoadAllRequests emptyNsJSON emptyNsLogs) ↔
        ∃ ns ∈ returned (GetNamespaces emptyNsLogs),
          id ∈ recordIDs (LoadRequests emptyNsJSON emptyNsLogs ns)) := by
  intro h
  have hall : "a1" ∈ recordIDs (LoadAllRequests emptyNsJSON emptyNsLogs) := by decide
  obtain ⟨ns, hns, _⟩ := (h "a1").mp hall
  have hnone : returned (GetNamespaces emptyNsLogs) = [] := by decide
  rw [hnone] at hns
  exact absurd hns (List.not_mem_nil ns)

/-- C3, amended: every record id returned by `LoadRequests(ns)`, for any `ns`,
is returned by `LoadAllRequests()`; and when every request file of the directory
(regular, name ending in `.json`) has its last `_` at a position greater than 0,
the ids returned by `LoadAllRequests()` are exactly the ids returned by
`LoadRequests(ns)` for some `ns` in `GetNamespaces()`. -/
theorem C3_union_over_namespaces (json : EncodingJSON) (fs : LogsDir) :
    (∀ ns id, id ∈ recordIDs (LoadRequests json fs ns) →
      id ∈ recordIDs (LoadAllRequests json fs)) ∧
    ((∀ e ∈ fs.entries, isRequestFile e = true → LastIndex e.Name '_' > 0) →
      ∀ id, id ∈ recordIDs (LoadAllRequests json fs) ↔
        ∃ ns ∈ returned (GetNamespaces fs), id ∈ recordIDs (LoadRequests json fs ns)) := by
  have hsub : ∀ ns id, id ∈ recordIDs (LoadRequests json fs ns) →
      id ∈ recordIDs (LoadAllRequests json fs) := by
    intro ns id h
    simp only [recordIDs, List.mem_map] at *
    obtain ⟨r, hr, hid⟩ := h
    refine ⟨r, ?_, hid⟩
    rw [mem_LoadRequests] at hr
    rw [mem_LoadAllRequests]
    obtain ⟨es, hes, e, he, hm, hd⟩ := hr
    exact ⟨es, hes, e, he, matchesNamespace_isRequestFile _ e hm, hd⟩
  refine ⟨hsub, ?_⟩
  intro hsep id
  constructor
  · intro h
    simp only [recordIDs, List.mem_map] at h
    obtain ⟨r, hr, hid⟩ := h
    rw [mem_LoadAllRequests] at hr
    obtain ⟨es, hes, e, he, hreq, hd⟩ := hr
    have hfs : fs.entries = es := by
      cases fs with
      | missing => simp [ReadDir] at hes
      | present l c es' =>
        cases l with
        | false => simp [ReadDir] at hes
        | true =>
          simp only [ReadDir, Except.ok.injEq] at hes
          simpa [LogsDir.entries] using hes
    have hidx := hsep e (hfs ▸ he) hreq
    refine ⟨sliceTo e.Name (LastIndex e.Name '_').toNat, ?_, ?_⟩
    · rw [mem_GetNamespaces]
      exact ⟨es, hes, e, he, hreq, hidx, rfl⟩
    · simp only [recordIDs, List.mem_map]
      refine ⟨r, ?_, hid⟩
      rw [mem_LoadRequests]
      exact ⟨es, hes, e, he, matchesNamespace_of_lastIndex e hreq hidx, hd⟩
  · rintro ⟨ns, _, h⟩
    exact hsub ns id h

/-- C3, amended, at the directory that holds the three `svc` records. -/
theorem C3_union_over_namespaces_witness :
    returned (GetNamespaces
      (SaveRequest svcJSON (SaveRequest svcJSON (SaveRequest svcJSON emptyLogs svcT1).1 svcT2).1
        svcT3).1) = ["svc"] ∧
    ("id2" ∈ recordIDs (LoadAllRequests svcJSON
      (SaveRequest svcJSON (SaveRequest svcJSON (SaveRequest svcJSON emptyLogs svcT1).1 svcT2).1
        svcT3).1) ↔
      ∃ ns ∈ returned (GetNamespaces
        (SaveRequest svcJSON (SaveRequest svcJSON (SaveRequest svcJSON emptyLogs svcT1).1 svcT2).1
          svcT3).1),
        "id2" ∈ recordIDs (LoadRequests svcJSON
          (SaveRequest svcJSON (SaveRequest svcJSON (SaveRequest svcJSON emptyLogs svcT1).1 svcT2).1
            svcT3).1 ns)) :=
  ⟨by decide, (C3_union_over_namespaces svcJSON _).2 (by decide) "id2"⟩

/-! ## Storage: clearing and saving -/

/-- C4: if `ClearNamespace(ns)` returns no error then, on the resulting
directory, `LoadRequests(ns)` returns the empty sequence and `GetNamespaces()`
returns a list that does not contain `ns`. -/
theorem C4_clear_then_empty (json : EncodingJSON) (fs fs' : LogsDir) (ns : String)
    (h : ClearNamespace fs ns = (fs', none)) :
    LoadRequests json fs' ns = .ok [] ∧
    ∃ nss, GetNamespaces fs' = .ok nss ∧ ns ∉ nss := by
  obtain ⟨c, cur', hfs, hnone⟩ := ClearNamespace_ok fs fs' ns h
  subst hfs
  constructor
  · simp only [LoadRequests, ReadDir]
    rw [loadLoop_eq_decodedRecords]
    have hf : cur'.filter (matchesNamespace (ns ++ "_")) = [] := by
      rw [List.filter_eq_nil_iff]
      intro x hx
      simp [hnone x hx]
    simp [decodedRecords, hf, sortSlice_nil]
  · refine ⟨sortStrings (namespaceLoop cur' []), rfl, ?_⟩
    intro hmem
    have hmem' : ns ∈ returned (GetNamespaces (.present true c cur')) := hmem
    rw [mem_GetNamespaces] at hmem'
    obtain ⟨es, hes, e, he, hreq, hidx, hns⟩ := hmem'
    simp only [ReadDir, Except.ok.injEq] at hes
    subst hes
    have hm := matchesNamespace_of_lastIndex e hreq hidx
    rw [← hns, hnone e he] at hm
    exact absurd hm (by simp)

/-- C4 at a directory with two `svc` records among other entries. -/
theorem C4_clear_then_empty_witness :
    ClearNamespace mixedLogs "svc" =
      (.present true true
        [ { Name := "notes.txt", IsDir := false, content := some [7], removable := true,
            writable := true },
          plainFile "other_id9.json" [9],
          { Name := "svc_dir.json", IsDir := true, content := none, removable := true,
            writable := false } ], none) ∧
    LoadRequests svcJSON (ClearNamespace mixedLogs "svc").1 "svc" = .ok [] ∧
    ∃ nss, GetNamespaces (ClearNamespace mixedLogs "svc").1 = .ok nss ∧ "svc" ∉ nss :=
  ⟨by decide, C4_clear_then_empty svcJSON mixedLogs _ "svc" (by decide)⟩

/-- C5 fails as stated: in a directory listing `svc_id1.json`, `svc_id2.json`
(which cannot be removed) and `svc_id3.json`, `ClearNamespace("svc")` returns an
error and the removable matching file `svc_id3.json` is still there. -/
theorem C5_best_effort_counterexample :
    (ClearNamespace lockedLogs "svc").2 ≠ none ∧
    ∃ e ∈ (ClearNamespace lockedLogs "svc").1.entries,
      e.Name = "svc_id3.json" ∧ matchesNamespace ("svc" ++ "_") e = true ∧
        e.removable = true := by
  decide

/-- C5, amended: `ClearNamespace(ns)` stops at the first removal that fails. In a
listable directory (no two entries with one name) whose listing is
`pre ++ bad :: post`, where `bad` matches `ns_*.json` and cannot be removed and
every matching entry of `pre` can, it removes the matching entries of `pre`,
leaves `bad` and every entry of `post` in place, and returns an error. -/
theorem C5_clear_fail_fast (ns : String) (c : Bool) (pre post : List DirEntry) (bad : DirEntry)
    (hnodup : ((pre ++ bad :: post).map (fun x => x.Name)).Nodup)
    (hpre : ∀ e ∈ pre, matchesNamespace (ns ++ "_") e = true → e.removable = true)
    (hbad : matchesNamespace (ns ++ "_") bad = true) (hlock : bad.removable = false) :
    ∃ err, ClearNamespace (.present true c (pre ++ bad :: post)) ns =
      (.present true c
        (pre.filter (fun e => !matchesNamespace (ns ++ "_") e) ++ bad :: post), some err) := by
  have h := clearLoop_fail_fast (ns ++ "_") true c pre post bad [] (by simpa using hnodup)
    hpre hbad hlock
  simpa [ClearNamespace, ReadDir] using h

/-- C5, amended, at `lockedLogs`: `svc_id1.json` is removed, `svc_id2.json` and
`svc_id3.json` stay. -/
theorem C5_clear_fail_fast_witness :
    ∃ err, ClearNamespace lockedLogs "svc" =
      (.present true true [lockedFile "svc_id2.json" [2], plainFile "svc_id3.json" [3]],
       some err) :=
  C5_clear_fail_fast "svc" true [plainFile "svc_id1.json" [1]] [plainFile "svc_id3.json" [3]]
    (lockedFile "svc_id2.json" [2]) (by decide) (by decide) (by decide) (by decide)

/-- C6 fails as stated: after `SaveRequest` stored one record as `svc_id1.json`
(content `[1]`), `SaveRequest` of another record with the same namespace and id
returns no error and leaves `svc_id1.json` with the content `[9]` of the second
record; the first record is no longer returned by `LoadRequests("svc")`. -/
theorem C6_overwrite_counterexample :
    fileName svcT1 = fileName svcT1Later ∧
    SaveRequest sameIdJSON emptyLogs svcT1 =
      (.present true true [plainFile "svc_id1.json" [1]], none) ∧
    SaveRequest sameIdJSON (SaveRequest sameIdJSON emptyLogs svcT1).1 svcT1Later =
      (.present true true [plainFile "svc_id1.json" [9]], none) ∧
    LoadRequests sameIdJSON
      (SaveRequest sameIdJSON (SaveRequest sameIdJSON emptyLogs svcT1).1 svcT1Later).1 "svc"
      = .ok [svcT1Later] := by
  decide

/-- C6, amended: `SaveRequest(r)` writes the JSON of `r` to the file
`{namespace}_{id}.json`, creating it or replacing the content of the existing
file of that name. For a file name without path separator: entries with another
name are the same before and after the call, and after a call that returned no
error the file of that name is a regular file that holds the JSON of `r`, unless
it was there before and could not be read. -/
theorem C6_save_replaces_content (json : EncodingJSON) (fs : LogsDir) (req : LoggedRequest)
    (hsep : '/' ∉ (fileName req).data) :
    (∀ e, e.Name ≠ fileName req →
      (e ∈ (SaveRequest json fs req).1.entries ↔ e ∈ fs.entries)) ∧
    ((SaveRequest json fs req).2 = none →
      ∃ data f, ToJSON json req = .ok data ∧
        (SaveRequest json fs req).1.entries.find? (fun e => e.Name = fileName req) = some f ∧
        f.IsDir = false ∧
        (f.content = some data ∨
          (f.content = none ∧
            ∃ old, fs.entries.find? (fun e => e.Name = fileName req) = some old ∧
              old.content = none))) := by
  constructor
  · intro e hne
    rw [SaveRequest_entry json fs req hsep]
    cases json.Marshal req with
    | error err => rfl
    | ok data => exact writeEntry_others fs _ data e hne
  · intro hnone
    obtain ⟨data, l, c, es, es', f, hm, hfs, hfs', hfind, hdir, hcontent⟩ :=
      SaveRequest_ok json fs (SaveRequest json fs req).1 req hsep
        (Prod.ext rfl hnone)
    refine ⟨data, f, hm, ?_, hdir, ?_⟩
    · rw [hfs']
      exact hfind
    · rw [hfs]
      exact hcontent

/-- C6, amended, at the directory that already holds `svc_id1.json`: the second
save returns no error and the file then holds the JSON of the second record. -/
theorem C6_save_replaces_content_witness :
    (SaveRequest sameIdJSON (.present true true [plainFile "svc_id1.json" [1]]) svcT1Later).2
      = none ∧
    ∃ data f, ToJSON sameIdJSON svcT1Later = .ok data ∧
      (SaveRequest sameIdJSON (.present true true [plainFile "svc_id1.json" [1]])
        svcT1Later).1.entries.find? (fun e => e.Name = fileName svcT1Later) = some f ∧
      f.IsDir = false ∧
      (f.content = some data ∨
        (f.content = none ∧
          ∃ old, (LogsDir.present true true [plainFile "svc_id1.json" [1]]).entries.find?
              (fun e => e.Name = fileName svcT1Later) = some old ∧
            old.content = none)) :=
  ⟨by decide,
   (C6_save_replaces_content sameIdJSON (.present true true [plainFile "svc_id1.json" [1]])
      svcT1Later (by decide)).2 (by decide)⟩

/-! ## Storage: bad files -/

/-- C7: on a logs directory that can be listed, `LoadAllRequests()` and
`LoadRequests(ns)` return no error, and what they return is, up to order,
exactly the records of the selected files that are read and decoded without
error; a file that cannot be read or decoded changes nothing else: the result is
the same as on the directory without that file. -/
theorem C7_bulk_reads_skip_bad_files (json : EncodingJSON) (c : Bool) (es : List DirEntry)
    (ns : String) :
    (∃ rs, LoadAllRequests json (.present true c es) = .ok rs ∧
      rs.Perm (decodedRecords json isRequestFile es) ∧
      ∀ r, r ∈ rs ↔ ∃ e ∈ es, isRequestFile e = true ∧
        ∃ data, ReadFile e = .ok data ∧ FromJSON json data = .ok r) ∧
    (∃ rs, LoadRequests json (.present true c es) ns = .ok rs ∧
      rs.Perm (decodedRecords json (matchesNamespace (ns ++ "_")) es) ∧
      ∀ r, r ∈ rs ↔ ∃ e ∈ es, matchesNamespace (ns ++ "_") e = true ∧
        ∃ data, ReadFile e = .ok data ∧ FromJSON json data = .ok r) ∧
    (∀ pre post bad, es = pre ++ bad :: post →
      (∀ data, ReadFile bad = .ok data → ∃ err, FromJSON json data = .error err) →
      LoadAllRequests json (.present true c es) =
        LoadAllRequests json (.present true c (pre ++ post)) ∧
      LoadRequests json (.present true c es) ns =
        LoadRequests json (.present true c (pre ++ post)) ns) := by
  refine ⟨⟨_, rfl, ?_, ?_⟩, ⟨_, rfl, ?_, ?_⟩, ?_⟩
  · rw [loadLoop_eq_decodedRecords]
    exact sortSlice_perm _ _
  · intro r
    rw [(sortSlice_perm _ _).mem_iff, loadLoop_eq_decodedRecords, mem_decodedRecords]
    simp only [decodeEntry_eq_some]
  · rw [loadLoop_eq_decodedRecords]
    exact sortSlice_perm _ _
  · intro r
    rw [(sortSlice_perm _ _).mem_iff, loadLoop_eq_decodedRecords, mem_decodedRecords]
    simp only [decodeEntry_eq_some]
  · intro pre post bad hes hbad
    have hnone : decodeEntry json bad = none := by
      cases hd : decodeEntry json bad with
      | none => rfl
      | some r =>
        obtain ⟨data, hread, hdec⟩ := (decodeEntry_eq_some json bad r).mp hd
        obtain ⟨err, herr⟩ := hbad data hread
        rw [hdec] at herr
        exact absurd herr (by simp)
    subst hes
    simp only [LoadAllRequests, LoadRequests, ReadDir, loadLoop_eq_decodedRecords,
      decodedRecords_skip json _ pre post bad hnone, and_self]

/-- C7 at `corruptLogs`: both reads return the two good records, and dropping the
file that does not decode changes neither result. -/
theorem C7_bulk_reads_skip_bad_files_witness :
    LoadAllRequests svcJSON corruptLogs = .ok [svcT2, svcT1] ∧
    LoadRequests svcJSON corruptLogs "svc" = .ok [svcT2, svcT1] ∧
    LoadAllRequests svcJSON corruptLogs =
      LoadAllRequests svcJSON (.present true true
        ([plainFile "svc_id1.json" [1], plainFile "svc_id2.json" [2]] ++
         [{ Name := "svc_idy.json", IsDir := false, content := none, removable := true,
            writable := true }])) ∧
    LoadRequests svcJSON corruptLogs "svc" =
      LoadRequests svcJSON (.present true true
        ([plainFile "svc_id1.json" [1], plainFile "svc_id2.json" [2]] ++
         [{ Name := "svc_idy.json", IsDir := false, content := none, removable := true,
            writable := true }])) "svc" :=
  ⟨by decide, by decide,
   (C7_bulk_reads_skip_bad_files svcJSON true _ "svc").2.2
      [plainFile "svc_id1.json" [1], plainFile "svc_id2.json" [2]]
      [{ Name := "svc_idy.json", IsDir := false, content := none, removable := true,
         writable := true }]
      (plainFile "svc_idx.json" [255, 255]) (by decide)
      (fun data hread => by
        have hdata : data = [255, 255] := by
          simp only [ReadFile, plainFile, Except.ok.injEq] at hread
          exact hread.symm
        subst hdata
        exact ⟨"invalid character", by decide⟩)⟩

/-! ## Client -/

theorem Do_enabled (json : EncodingJSON) (c : Client) (st : Storage) (startTime : Int)
    (reqID : String) (duration : Int) (fs : LogsDir) (req : Request)
    (hen : c.enabled = true) (hst : c.storage = some st) :
    c.Do json startTime reqID duration fs req =
      some { outcome := returnedOutcome (c.httpClient (sentRequest req)),
             sent := sentRequest req,
             saved := some (completedRecord c startTime reqID duration req
               (c.httpClient (sentRequest req))),
             warning := (SaveRequest json fs (completedRecord c startTime reqID duration req
               (c.httpClient (sentRequest req)))).2.map
                 (fun e => "Warning: failed to save request log: " ++ e),
             fs := (SaveRequest json fs (completedRecord c startTime reqID duration req
               (c.httpClient (sentRequest req)))).1 } := by
  unfold Client.Do
  simp only [hen, hst, Bool.not_true, Bool.false_eq_true, ↓reduceIte]
  rcases req with ⟨m, u, h, body⟩
  cases body with
  | none =>
    simp only [sentRequest, completedRecord, capturedBody]
    cases c.httpClient { Method := m, URL := u, Header := h, Body := none } with
    | failure resp err => rfl
    | success resp =>
      rcases resp with ⟨code, hdr, rbody⟩
      cases rbody with
      | none => rfl
      | some rb =>
        rcases rb with ⟨rpending, rfailure, roff⟩
        cases rfailure <;> rfl
  | some body =>
    rcases body with ⟨pending, failure, off⟩
    cases failure with
    | none =>
      simp only [sentRequest, completedRecord, capturedBody, ReadAll, drained]
      cases c.httpClient
        { Method := m, URL := u, Header := h, Body := some (NewReader pending) } with
      | failure resp err => rfl
      | success resp =>
        rcases resp with ⟨code, hdr, rbody⟩
        cases rbody with
        | none => rfl
        | some rb =>
          rcases rb with ⟨rpending, rfailure, roff⟩
          cases rfailure <;> rfl
    | some e =>
      simp only [sentRequest, completedRecord, capturedBody, ReadAll, drained]
      cases c.httpClient
        { Method := m, URL := u, Header := h,
          Body := some { pending := [], failure := some e,
                         offset := off + pending.length } } with
      | failure resp err => rfl
      | success resp =>
        rcases resp with ⟨code, hdr, rbody⟩
        cases rbody with
        | none => rfl
        | some rb =>
          rcases rb with ⟨rpending, rfailure, roff⟩
          cases rfailure <;> rfl

/-- C8: for an enabled client and a request whose body stream yields the bytes
`b`, `Do` returns; its capture reads the caller's stream to the end, so that
nothing more can be read from it; the request it hands to the wrapped client is
the caller's request with a new body stream that reads exactly `b` from the
start, which for a non-empty `b` is not the stream the capture left behind; the
error it returns is the one the wrapped client returns on that request; and the
`Body` of the record is the text of `b`. -/
theorem C8_request_body_restored (json : EncodingJSON) (c : Client) (st : Storage)
    (startTime : Int) (reqID : String) (duration : Int) (fs : LogsDir) (req : Request)
    (body rest : BodyStream) (b : Bytes)
    (hen : c.enabled = true) (hst : c.storage = some st)
    (hbody : req.Body = some body) (hread : ReadAll body = (b, none, rest)) :
    ∃ res record, c.Do json startTime reqID duration fs req = some res ∧
      (ReadAll rest).1 = [] ∧
      res.sent = { req with Body := some (NewReader b) } ∧
      (ReadAll (NewReader b)).1 = b ∧ (ReadAll (NewReader b)).2.1 = none ∧
      (b ≠ [] → res.sent ≠ { req with Body := some rest }) ∧
      res.outcome.err = (c.httpClient { req with Body := some (NewReader b) }).err ∧
      res.saved = some record ∧ record.Body = goString b := by
  simp only [ReadAll, Prod.mk.injEq] at hread
  obtain ⟨hb, hf, hr⟩ := hread
  have hsent : sentRequest req = { req with Body := some (NewReader b) } := by
    unfold sentRequest
    rw [hbody]
    simp only [ReadAll, hf, hb]
  have hcap : capturedBody req = goString b := by
    unfold capturedBody
    rw [hbody]
    simp only [ReadAll, hf, hb]
  refine ⟨_, _, Do_enabled json c st startTime reqID duration fs req hen hst, ?_, hsent, rfl,
    rfl, ?_, ?_, rfl, hcap⟩
  · rw [← hr]
    rfl
  · intro hne heq
    simp only at heq
    rw [hsent] at heq
    have hpend := congrArg (fun r : Request => r.Body.map (fun s => s.pending)) heq
    simp only [Option.map_some', NewReader, ← hr, drained, Option.some.injEq] at hpend
    exact hne hpend
  · rw [← hsent]
    cases c.httpClient (sentRequest req) <;> rfl

/-- C8 at `postRequest`, whose body yields `hi`: the wrapped client gets a
request whose body reads `hi`, not the emptied stream of the caller. -/
theorem C8_request_body_restored_witness :
    ∃ res record, svcClient.Do failingJSON 1000 "00ff00ff00ff00ff" 25 emptyLogs postRequest
        = some res ∧
      (ReadAll { pending := [], failure := none, offset := 2 }).1 = ([] : Bytes) ∧
      res.sent = { postRequest with Body := some (NewReader [104, 105]) } ∧
      (ReadAll (NewReader [104, 105])).1 = ([104, 105] : Bytes) ∧
      (ReadAll (NewReader [104, 105])).2.1 = none ∧
      (([104, 105] : Bytes) ≠ [] →
        res.sent ≠ { postRequest with Body := some { pending := [], failure := none, offset := 2 } }) ∧
      res.outcome.err
        = (svcClient.httpClient { postRequest with Body := some (NewReader [104, 105]) }).err ∧
      res.saved = some record ∧ record.Body = goString [104, 105] :=
  C8_request_body_restored failingJSON svcClient { baseDir := "/home/user/.config/slurpy" }
    1000 "00ff00ff00ff00ff" 25 emptyLogs postRequest { pending := [104, 105], failure := none }
    { pending := [], failure := none, offset := 2 } [104, 105] rfl rfl rfl rfl

/-- C9: for an enabled client `Do` returns, and when the wrapped call succeeds
with a response whose body stream yields the bytes `b`, the capture reads that
stream to the end, so that nothing more can be read from it, and the response
`Do` returns is that response with a new body stream that reads exactly `b` from
the start, which for a non-empty `b` is not the stream the capture left behind;
the record holds a response part with the status code, the text of `b` as `Body`
and the number of bytes of `b` as `Size`. -/
theorem C9_response_body_restored (json : EncodingJSON) (c : Client) (st : Storage)
    (startTime : Int) (reqID : String) (duration : Int) (fs : LogsDir) (req : Request)
    (hen : c.enabled = true) (hst : c.storage = some st) :
    ∃ res, c.Do json startTime reqID duration fs req = some res ∧
      ∀ resp body rest b, c.httpClient res.sent = .success resp → resp.Body = some body →
        ReadAll body = (b, none, rest) →
        (ReadAll rest).1 = [] ∧
        res.outcome = .success { resp with Body := some (NewReader b) } ∧
        (ReadAll (NewReader b)).1 = b ∧ (ReadAll (NewReader b)).2.1 = none ∧
        (b ≠ [] → res.outcome ≠ .success { resp with Body := some rest }) ∧
        ∃ record logged, res.saved = some record ∧ record.Response = some logged ∧
          logged.StatusCode = resp.StatusCode ∧ logged.Body = goString b ∧
          logged.Size = (b.length : Int) := by
  refine ⟨_, Do_enabled json c st startTime reqID duration fs req hen hst, ?_⟩
  intro resp body rest b hcall hbody hread
  simp only at hcall
  simp only [ReadAll, Prod.mk.injEq] at hread
  obtain ⟨hb, hf, hr⟩ := hread
  have hrest : restoredResponse resp = { resp with Body := some (NewReader b) } := by
    unfold restoredResponse
    rw [hbody]
    simp only [ReadAll, hf, hb]
  have hcap : capturedResponse resp =
      { StatusCode := resp.StatusCode, Headers := HeadersFromHTTP resp.Header,
        Body := goString b, Size := (b.length : Int) } := by
    unfold capturedResponse
    rw [hbody]
    simp only [ReadAll, hf, hb]
  have hout : returnedOutcome (c.httpClient (sentRequest req)) =
      .success { resp with Body := some (NewReader b) } := by
    simp only [hcall, returnedOutcome, hrest]
  refine ⟨?_, hout, rfl, rfl, ?_, completedRecord c startTime reqID duration req
    (c.httpClient (sentRequest req)), capturedResponse resp, rfl, ?_, ?_, ?_, ?_⟩
  · rw [← hr]
    rfl
  · intro hne heq
    simp only at heq
    rw [hout] at heq
    have hpend := congrArg
      (fun o : Outcome => o.resp.bind (fun r => r.Body.map (fun s => s.pending))) heq
    simp only [Outcome.resp, Option.some_bind, Option.map_some', NewReader, ← hr, drained,
      Option.some.injEq] at hpend
    exact hne hpend
  · simp only [completedRecord, hcall]
  · rw [hcap]
  · rw [hcap]
  · rw [hcap]

/-- C9 at `postRequest`: the wrapped client answers with the body `ok`, and the
caller gets a response whose body reads `ok`, not the emptied stream. -/
theorem C9_response_body_restored_witness :
    ∃ res, svcClient.Do failingJSON 1000 "00ff00ff00ff00ff" 25 emptyLogs postRequest
        = some res ∧
      res.outcome = .success { StatusCode := 200, Header := [("Content-Type", ["text/plain"])],
                               Body := some (NewReader [111, 107]) } ∧
      res.outcome ≠ .success { StatusCode := 200, Header := [("Content-Type", ["text/plain"])],
                               Body := some { pending := [], failure := none, offset := 2 } } ∧
      ∃ record logged, res.saved = some record ∧ record.Response = some logged ∧
        logged.StatusCode = 200 ∧ logged.Body = goString [111, 107] ∧ logged.Size = 2 := by
  obtain ⟨res, hdo, h⟩ := C9_response_body_restored failingJSON svcClient
    { baseDir := "/home/user/.config/slurpy" } 1000 "00ff00ff00ff00ff" 25 emptyLogs postRequest
    rfl rfl
  have hres := Option.some.inj
    ((Do_enabled failingJSON svcClient { baseDir := "/home/user/.config/slurpy" } 1000
      "00ff00ff00ff00ff" 25 emptyLogs postRequest rfl rfl).symm.trans hdo)
  have hcall : svcClient.httpClient res.sent =
      .success { StatusCode := 200, Header := [("Content-Type", ["text/plain"])],
                 Body := some (NewReader [111, 107]) } := by
    rw [← hres]
    rfl
  obtain ⟨_, hout, _, _, hdiff, record, logged, hsaved, hresp, hcode, hbody, hsize⟩ :=
    h _ (NewReader [111, 107]) { pending := [], failure := none, offset := 2 } [111, 107] hcall rfl rfl
  exact ⟨res, hdo, hout, hdiff (by decide), record, logged, hsaved, hresp, hcode, hbody,
    hsize⟩

/-- C10: for an enabled client, `Do` returns, the error it returns is exactly
the error of the wrapped call (and on a failed wrapped call the whole pair is
the wrapped call's), and the pair it returns and the request it sends are the
same for every JSON library and every state of the logs directory, that is,
whether `SaveRequest` succeeds or fails. -/
theorem C10_save_failure_isolated (json : EncodingJSON) (c : Client) (st : Storage)
    (startTime : Int) (reqID : String) (duration : Int) (fs : LogsDir) (req : Request)
    (hen : c.enabled = true) (hst : c.storage = some st) :
    ∃ res, c.Do json startTime reqID duration fs req = some res ∧
      res.outcome.err = (c.httpClient res.sent).err ∧
      (∀ resp err, c.httpClient res.sent = .failure resp err →
        res.outcome = .failure resp err) ∧
      ∀ json' fs', ∃ res', c.Do json' startTime reqID duration fs' req = some res' ∧
        res'.outcome = res.outcome ∧ res'.sent = res.sent := by
  refine ⟨_, Do_enabled json c st startTime reqID duration fs req hen hst, ?_, ?_, ?_⟩
  · simp only
    cases c.httpClient (sentRequest req) <;> rfl
  · intro resp err h
    simp only at h
    simp only [h, returnedOutcome]
  · intro json' fs'
    exact ⟨_, Do_enabled json' c st startTime reqID duration fs' req hen hst, rfl, rfl⟩

/-- C10 at `postRequest`: with a JSON library that fails the save is reported by
a warning, with one that works the file is written, and `Do` returns the same
pair in both cases. -/
theorem C10_save_failure_isolated_witness :
    (∃ res, svcClient.Do failingJSON 1000 "00ff00ff00ff00ff" 25 emptyLogs postRequest
        = some res ∧
      res.outcome.err = (svcClient.httpClient res.sent).err ∧
      (∀ resp err, svcClient.httpClient res.sent = .failure resp err →
        res.outcome = .failure resp err) ∧
      ∀ json' fs', ∃ res', svcClient.Do json' 1000 "00ff00ff00ff00ff" 25 fs' postRequest
          = some res' ∧
        res'.outcome = res.outcome ∧ res'.sent = res.sent) ∧
    (svcClient.Do failingJSON 1000 "00ff00ff00ff00ff" 25 emptyLogs postRequest).map
      (fun res => (res.warning.isSome, res.fs)) = some (true, emptyLogs) ∧
    (svcClient.Do postJSON 1000 "00ff00ff00ff00ff" 25 emptyLogs postRequest).map
      (fun res => (res.warning, res.fs)) =
      some (none, .present true true [plainFile "svc_00ff00ff00ff00ff.json" [1]]) ∧
    (svcClient.Do failingJSON 1000 "00ff00ff00ff00ff" 25 emptyLogs postRequest).map
      (fun res => res.outcome) =
    (svcClient.Do postJSON 1000 "00ff00ff00ff00ff" 25 emptyLogs postRequest).map
      (fun res => res.outcome) :=
  ⟨C10_save_failure_isolated failingJSON svcClient { baseDir := "/home/user/.config/slurpy" }
     1000 "00ff00ff00ff00ff" 25 emptyLogs postRequest rfl rfl,
   by decide, by decide, by decide⟩

/-- C11: for an enabled client whose wrapped client reports its errors with a
non-empty message (as `(*http.Client).Do` does), `Do` returns and the record it
hands to `SaveRequest` has exactly one of a response and a non-empty `Error`:
after a failed call `Error` is the message of the error and there is no
response, after a successful call there is a response and `Error` is empty. -/
theorem C11_response_xor_error (json : EncodingJSON) (c : Client) (st : Storage)
    (startTime : Int) (reqID : String) (duration : Int) (fs : LogsDir) (req : Request)
    (hen : c.enabled = true) (hst : c.storage = some st)
    (hmsg : ∀ r resp err, c.httpClient r = .failure resp err → err ≠ "") :
    ∃ res record, c.Do json startTime reqID duration fs req = some res ∧
      res.saved = some record ∧
      (∀ resp err, c.httpClient res.sent = .failure resp err →
        record.Error = err ∧ record.Error ≠ "" ∧ record.Response = none) ∧
      (∀ resp, c.httpClient res.sent = .success resp →
        record.Response.isSome = true ∧ record.Error = "") ∧
      ((record.Response.isSome = true ∧ record.Error = "") ∨
        (record.Response = none ∧ record.Error ≠ "")) := by
  refine ⟨_, _, Do_enabled json c st startTime reqID duration fs req hen hst, rfl, ?_, ?_, ?_⟩
  · intro resp err h
    simp only at h
    have hne := hmsg _ resp err h
    simp [completedRecord, h, hne]
  · intro resp h
    simp only at h
    simp [completedRecord, h]
  · cases h : c.httpClient (sentRequest req) with
    | success resp =>
      left
      simp [completedRecord, h]
    | failure resp err =>
      right
      have hne := hmsg _ resp err h
      simp [completedRecord, h, hne]

/-- C11 at a request to a host that cannot be dialled: the record holds the
error and no response. -/
theorem C11_response_xor_error_witness :
    ∃ res record, svcClient.Do failingJSON 1000 "00ff00ff00ff00ff" 25 emptyLogs
        unreachableRequest = some res ∧
      res.saved = some record ∧
      record.Error = "dial tcp: connection refused" ∧ record.Response = none := by
  obtain ⟨res, record, hdo, hsaved, hfail, _, _⟩ :=
    C11_response_xor_error failingJSON svcClient { baseDir := "/home/user/.config/slurpy" }
      1000 "00ff00ff00ff00ff" 25 emptyLogs unreachableRequest rfl rfl
      (by
        intro r resp err h
        have h' : stubHTTP r = .failure resp err := h
        unfold stubHTTP at h'
        split at h'
        · injection h' with _ he
          rw [← he]
          decide
        · exact absurd h' (by simp))
  have hres := Option.some.inj
    ((Do_enabled failingJSON svcClient { baseDir := "/home/user/.config/slurpy" } 1000
      "00ff00ff00ff00ff" 25 emptyLogs unreachableRequest rfl rfl).symm.trans hdo)
  have hcall : svcClient.httpClient res.sent =
      .failure none "dial tcp: connection refused" := by
    rw [← hres]
    rfl
  obtain ⟨herr, _, hresp⟩ := hfail none _ hcall
  exact ⟨res, record, hdo, hsaved, herr, hresp⟩

/-- C12: with logging disabled, `Do` returns exactly what the wrapped client
returns on the caller's unmodified request, hands no record to `SaveRequest`,
prints no warning and leaves the logs directory as it was, so `LoadRequests` and
`LoadAllRequests` return the same before and after the call. -/
theorem C12_disabled_delegates (json : EncodingJSON) (c : Client) (startTime : Int)
    (reqID : String) (duration : Int) (fs : LogsDir) (req : Request)
    (hdis : c.enabled = false) :
    ∃ res, c.Do json startTime reqID duration fs req = some res ∧
      res.outcome = c.httpClient req ∧ res.sent = req ∧ res.saved = none ∧
      res.warning = none ∧ res.fs = fs ∧
      (∀ ns, LoadRequests json res.fs ns = LoadRequests json fs ns) ∧
      LoadAllRequests json res.fs = LoadAllRequests json fs := by
  refine ⟨{ outcome := c.httpClient req, sent := req, saved := none, warning := none,
            fs := fs }, ?_, rfl, rfl, rfl, rfl, rfl, fun _ => rfl, rfl⟩
  unfold Client.Do
  simp [hdis]

/-- C12 at `silentClient` on the directory that holds one `svc` record. -/
theorem C12_disabled_delegates_witness :
    ∃ res, silentClient.Do svcJSON 1000 "00ff00ff00ff00ff" 25
        (.present true true [plainFile "svc_id1.json" [1]]) postRequest = some res ∧
      res.outcome = silentClient.httpClient postRequest ∧ res.sent = postRequest ∧
      res.saved = none ∧ res.warning = none ∧
      res.fs = .present true true [plainFile "svc_id1.json" [1]] ∧
      (∀ ns, LoadRequests svcJSON res.fs ns =
        LoadRequests svcJSON (.present true true [plainFile "svc_id1.json" [1]]) ns) ∧
      LoadAllRequests svcJSON res.fs =
        LoadAllRequests svcJSON (.present true true [plainFile "svc_id1.json" [1]]) :=
  C12_disabled_delegates svcJSON silentClient 1000 "00ff00ff00ff00ff" 25
    (.present true true [plainFile "svc_id1.json" [1]]) postRequest rfl

/-! ## Save, then load -/

/-- C13 fails as stated. In a logs directory that accepts new files and cannot
be listed, `SaveRequest` returns no error and `LoadRequests` of the record's
namespace returns an error; and for a record of namespace `../x`, whose file
name `../x_id1.json` leads out of the logs directory, `SaveRequest` into the
empty logs directory returns no error, leaves it empty, and `LoadRequests("../x")`
returns the empty sequence. -/
theorem C13_save_then_load_counterexample :
    ((SaveRequest svcJSON writeOnlyLogs svcT1).2 = none ∧
      LoadRequests svcJSON (SaveRequest svcJSON writeOnlyLogs svcT1).1 svcT1.Namespace
        = .error "failed to read logs directory") ∧
    (fileName upRecord = "../x_id1.json" ∧
      SaveRequest upJSON emptyLogs upRecord = (emptyLogs, none) ∧
      LoadRequests upJSON (SaveRequest upJSON emptyLogs upRecord).1 upRecord.Namespace
        = .ok []) := by
  decide

/-- Saving over a file that can be written and cannot be read leaves it
unreadable: `LoadRequests` skips it. -/
theorem save_over_unreadable_file :
    (SaveRequest svcJSON unreadableLogs svcT1).2 = none ∧
    LoadRequests svcJSON (SaveRequest svcJSON unreadableLogs svcT1).1 "svc" = .ok [] := by
  decide

/-- C13, amended: after `SaveRequest(r)` returned no error, `LoadRequests` of
the namespace of `r` returns a non-empty sequence that contains a record with
the `ID`, `Namespace`, `Method` and `URL` of `r`, provided that the logs
directory can be listed, that the file name `{namespace}_{id}.json` holds no path
separator, that no file of that name which cannot be read was there before, and
that the JSON library decodes the JSON of `r` to a record with these four
fields. -/
theorem C13_save_then_load (json : EncodingJSON) (fs fs' : LogsDir) (r : LoggedRequest)
    (hsave : SaveRequest json fs r = (fs', none))
    (hlist : ReadDir fs ≠ .error .other)
    (hsep : '/' ∉ (fileName r).data)
    (hreadable : ∀ old, fs.entries.find? (fun e => e.Name = fileName r) = some old →
      old.content ≠ none)
    (hrt : ∀ data, json.Marshal r = .ok data →
      ∃ r', json.Unmarshal data = .ok r' ∧ r'.ID = r.ID ∧ r'.Namespace = r.Namespace ∧
        r'.Method = r.Method ∧ r'.URL = r.URL) :
    ∃ rs, LoadRequests json fs' r.Namespace = .ok rs ∧ rs ≠ [] ∧
      ∃ r' ∈ rs, r'.ID = r.ID ∧ r'.Namespace = r.Namespace ∧ r'.Method = r.Method ∧
        r'.URL = r.URL := by
  obtain ⟨data, l, c, es, es', f, hm, hfs, hfs', hfind, hdir, hcontent⟩ :=
    SaveRequest_ok json fs fs' r hsep hsave
  obtain ⟨r', hu, hid, hns, hmeth, hurl⟩ := hrt data hm
  subst hfs hfs'
  obtain ⟨hf, hname⟩ := mem_find _ _ _ hfind
  have hdata : f.content = some data := by
    rcases hcontent with h | ⟨_, old, hold, hnone⟩
    · exact h
    · exact absurd hnone (hreadable old hold)
  cases l with
  | false => exact absurd rfl hlist
  | true =>
    have hmem : r' ∈ returned (LoadRequests json (.present true c es') r.Namespace) := by
      rw [mem_LoadRequests]
      refine ⟨es', rfl, f, hf, ?_, ?_⟩
      · simp [matchesNamespace, hdir, hname, fileName_hasPrefix, fileName_hasSuffix]
      · simp [decodeEntry, hdata, hu]
    refine ⟨_, rfl, ?_, r', hmem, hid, hns, hmeth, hurl⟩
    intro hnil
    have hmem' : r' ∈ sortSlice newestFirst
        (loadLoop json (matchesNamespace (r.Namespace ++ "_")) es') := hmem
    rw [hnil] at hmem'
    exact absurd hmem' (List.not_mem_nil _)

/-- C13, amended, at `svcT1`, saved into the empty logs directory. -/
theorem C13_save_then_load_witness :
    ∃ rs, LoadRequests svcJSON (SaveRequest svcJSON emptyLogs svcT1).1 svcT1.Namespace
        = .ok rs ∧ rs ≠ [] ∧
      ∃ r' ∈ rs, r'.ID = svcT1.ID ∧ r'.Namespace = svcT1.Namespace ∧
        r'.Method = svcT1.Method ∧ r'.URL = svcT1.URL :=
  C13_save_then_load svcJSON emptyLogs _ svcT1 (by decide) (by decide) (by decide)
    (fun old hold => by
      have hnone : emptyLogs.entries.find? (fun e => e.Name = fileName svcT1) = none := by
        decide
      rw [hnone] at hold
      exact absurd hold (by simp))
    (fun data hdata => by
      have hd : data = [1] := by
        have h1 : svcJSON.Marshal svcT1 = .ok [1] := by decide
        rw [h1] at hdata
        exact (Except.ok.inj hdata).symm
      subst hd
      exact ⟨svcT1, by decide, rfl, rfl, rfl, rfl⟩)

/-! ## The list of namespaces -/

theorem char_eq_of_toNat (a b : Char) (h1 : ¬ a.toNat < b.toNat) (h2 : ¬ b.toNat < a.toNat) :
    a = b := by
  have h : a.toNat = b.toNat := by omega
  rw [← Char.ofNat_toNat a, ← Char.ofNat_toNat b, h]

theorem lexLess_iff_lex (as bs : List Char) :
    lexLess as bs = true ↔ List.Lex (· < ·) as bs := by
  induction as generalizing bs with
  | nil =>
    cases bs with
    | nil => simp [lexLess]
    | cons b bs => simp [lexLess, List.Lex.nil]
  | cons a as ih =>
    cases bs with
    | nil => simp [lexLess]
    | cons b bs =>
      unfold lexLess
      by_cases h1 : a.toNat < b.toNat
      · simp only [h1, ↓reduceIte, true_iff]
        exact List.Lex.rel h1
      · by_cases h2 : b.toNat < a.toNat
        · simp only [h1, h2, ↓reduceIte, Bool.false_eq_true, false_iff]
          intro h
          cases h with
          | cons h => exact absurd h2 (by omega)
          | rel h => exact h1 h
        · have hab := char_eq_of_toNat a b h1 h2
          subst hab
          simp only [h1, ↓reduceIte]
          rw [ih bs, List.Lex.cons_iff]

/-- The comparison of `sort.Strings` is the lexicographic order of strings. -/
theorem stringLess_iff_lt (a b : String) : stringLess a b = true ↔ a < b :=
  (lexLess_iff_lex a.data b.data).trans String.lt_iff_toList_lt.symm

theorem sortStrings_sorted (xs : List String) :
    (sortStrings xs).Pairwise (fun a b => ¬ b < a) := by
  have h := sortSlice_sorted stringLess
    (by
      intro a b hab
      have h1 := (stringLess_iff_lt a b).mp hab
      cases hba : stringLess b a with
      | false => rfl
      | true => exact absurd ((stringLess_iff_lt b a).mp hba) (lt_asymm h1))
    (by
      intro a b c hab hbc
      cases hac : stringLess a c with
      | false => rfl
      | true =>
        have h1 : ¬ a < b := fun h => by
          rw [(stringLess_iff_lt a b).mpr h] at hab
          exact absurd hab (by simp)
        have h2 : ¬ b < c := fun h => by
          rw [(stringLess_iff_lt b c).mpr h] at hbc
          exact absurd hbc (by simp)
        have h3 := (stringLess_iff_lt a c).mp hac
        exact absurd (lt_of_lt_of_le h3 (not_lt.mp h2)) (not_lt.mpr (not_lt.mp h1))) xs
  refine h.imp ?_
  intro a b hab hlt
  rw [(stringLess_iff_lt b a).mpr hlt] at hab
  exact absurd hab (by simp)

theorem setAdd_nodup (keys : List String) (k : String) (h : keys.Nodup) :
    (setAdd keys k).Nodup := by
  unfold setAdd
  split
  · exact h
  · rename_i hk
    rw [List.nodup_append]
    refine ⟨h, List.nodup_singleton k, ?_⟩
    intro x hx hx'
    rw [List.mem_singleton] at hx'
    subst hx'
    exact hk hx

theorem namespaceLoop_nodup (es : List DirEntry) (acc : List String) (h : acc.Nodup) :
    (namespaceLoop es acc).Nodup := by
  induction es generalizing acc with
  | nil => simpa [namespaceLoop] using h
  | cons e rest ih =>
    unfold namespaceLoop
    split
    · exact ih acc h
    · simp only
      split
      · exact ih _ (setAdd_nodup _ _ h)
      · exact ih acc h

theorem sortStrings_strict (xs : List String) (h : xs.Nodup) :
    (sortStrings xs).Pairwise (fun a b => a < b) := by
  have hnd : (sortStrings xs).Nodup := (sortSlice_perm stringLess xs).nodup_iff.mpr h
  have hs := sortStrings_sorted xs
  refine (hs.and hnd).imp ?_
  intro a b hab
  exact lt_of_le_of_ne (not_lt.mp hab.1) hab.2

/-- Position `k` holds the last `c` of `xs`. -/
theorem lastIndexFrom_last (c : Char) (xs : List Char) (i : Nat) (acc : Int) :
    (c ∉ xs ∧ lastIndexFrom c xs i acc = acc) ∨
      ∃ k, xs[k]? = some c ∧ (∀ j, k < j → xs[j]? ≠ some c) ∧
        lastIndexFrom c xs i acc = ((i + k : Nat) : Int) := by
  induction xs generalizing i acc with
  | nil => left; exact ⟨List.not_mem_nil c, rfl⟩
  | cons x rest ih =>
    unfold lastIndexFrom
    rcases ih (i + 1) (if x = c then (i : Int) else acc) with ⟨hnot, h⟩ | ⟨k, hk, hlast, h⟩
    · by_cases hx : x = c
      · right
        refine ⟨0, by simp [hx], ?_, by rw [h]; simp [hx]⟩
        intro j hj heq
        obtain ⟨j', rfl⟩ : ∃ j', j = j' + 1 := ⟨j - 1, by omega⟩
        rw [List.getElem?_cons_succ] at heq
        have hmem := List.mem_iff_getElem?.mpr ⟨j', heq⟩
        exact hnot hmem
      · left
        refine ⟨?_, by rw [h]; simp [hx]⟩
        intro hmem
        rcases List.mem_cons.mp hmem with h' | h'
        · exact hx h'.symm
        · exact hnot h'
    · right
      refine ⟨k + 1, by simpa using hk, ?_, ?_⟩
      · intro j hj
        obtain ⟨j', rfl⟩ : ∃ j', j = j' + 1 := ⟨j - 1, by omega⟩
        rw [List.getElem?_cons_succ]
        exact hlast j' (by omega)
      · rw [h]
        congr 1
        omega

/-- `LastIndex(s, c)` is greater than 0 exactly when the last `c` of `s` is at a
position `k > 0`, and then it is `k`. -/
theorem LastIndex_pos_iff (s : String) (c : Char) (k : Nat) :
    (LastIndex s c > 0 ∧ (LastIndex s c).toNat = k) ↔
      (0 < k ∧ s.data[k]? = some c ∧ ∀ j, k < j → s.data[j]? ≠ some c) := by
  unfold LastIndex
  rcases lastIndexFrom_last c s.data 0 (-1) with ⟨hnot, h⟩ | ⟨k', hk', hlast, h⟩
  · rw [h]
    constructor
    · rintro ⟨hpos, _⟩
      omega
    · rintro ⟨_, hget, _⟩
      exact absurd (List.mem_iff_getElem?.mpr ⟨k, hget⟩) hnot
  · rw [h]
    simp only [Nat.zero_add, Int.toNat_ofNat, gt_iff_lt, Int.natCast_pos]
    constructor
    · rintro ⟨hpos, rfl⟩
      exact ⟨hpos, hk', hlast⟩
    · rintro ⟨hpos, hget, hl⟩
      have hkk : k' = k := by
        rcases Nat.lt_trichotomy k' k with hlt | heq | hgt
        · exact absurd hget (hlast k hlt)
        · exact heq
        · exact absurd hk' (hl k' hgt)
      subst hkk
      exact ⟨hpos, rfl⟩

/-- C14: whenever `GetNamespaces()` returns a list (it does unless listing the
directory fails with an error other than "does not exist"), the list is
strictly increasing in the lexicographic order of strings, and a string `s` is
in it exactly when some entry that is no directory, whose name ends in `.json`,
has its last `_` at a position `k > 0` and `s` is the name up to position `k`. -/
theorem C14_namespaces_sorted (fs : LogsDir) :
    (ReadDir fs ≠ .error .other → ∃ nss, GetNamespaces fs = .ok nss) ∧
    ∀ nss, GetNamespaces fs = .ok nss →
      nss.Pairwise (fun a b => a < b) ∧
      ∀ s, s ∈ nss ↔ ∃ e ∈ fs.entries, e.IsDir = false ∧ HasSuffix e.Name ".json" = true ∧
        ∃ k, 0 < k ∧ e.Name.data[k]? = some '_' ∧
          (∀ j, k < j → e.Name.data[j]? ≠ some '_') ∧ s = sliceTo e.Name k := by
  have key : ∀ es : List DirEntry,
      (sortStrings (namespaceLoop es [])).Pairwise (fun a b => a < b) ∧
      ∀ s, s ∈ sortStrings (namespaceLoop es []) ↔
        ∃ e ∈ es, e.IsDir = false ∧ HasSuffix e.Name ".json" = true ∧
          ∃ k, 0 < k ∧ e.Name.data[k]? = some '_' ∧
            (∀ j, k < j → e.Name.data[j]? ≠ some '_') ∧ s = sliceTo e.Name k := by
    intro es
    refine ⟨sortStrings_strict _ (namespaceLoop_nodup es [] List.nodup_nil), ?_⟩
    intro s
    unfold sortStrings
    rw [(sortSlice_perm _ _).mem_iff, mem_namespaceLoop]
    simp only [List.not_mem_nil, false_or]
    constructor
    · rintro ⟨e, he, hreq, hidx, hs⟩
      simp only [isRequestFile, Bool.not_eq_true', Bool.or_eq_false_iff,
        Bool.not_eq_false'] at hreq
      obtain ⟨hpos, hget, hlast⟩ :=
        (LastIndex_pos_iff e.Name '_' (LastIndex e.Name '_').toNat).mp ⟨hidx, rfl⟩
      exact ⟨e, he, hreq.1, hreq.2, _, hpos, hget, hlast, hs⟩
    · rintro ⟨e, he, hdir, hsuf, k, hpos, hget, hlast, hs⟩
      obtain ⟨hidx, hk⟩ := (LastIndex_pos_iff e.Name '_' k).mpr ⟨hpos, hget, hlast⟩
      refine ⟨e, he, ?_, hidx, by rw [hk]; exact hs⟩
      simp only [isRequestFile, Bool.not_eq_true', Bool.or_eq_false_iff, Bool.not_eq_false']
      exact ⟨hdir, hsuf⟩
  constructor
  · intro h
    cases fs with
    | missing => exact ⟨[], rfl⟩
    | present l c es =>
      cases l with
      | false => exact absurd rfl h
      | true => exact ⟨_, rfl⟩
  · intro nss h
    cases fs with
    | missing =>
      simp only [GetNamespaces, ReadDir, Except.ok.injEq] at h
      subst h
      simp [LogsDir.entries]
    | present l c es =>
      cases l with
      | false => simp [GetNamespaces, ReadDir] at h
      | true =>
        simp only [GetNamespaces, ReadDir, Except.ok.injEq] at h
        subst h
        exact key es

/-- C14 at `mixedLogs`: the namespaces of its request files. -/
theorem C14_namespaces_sorted_witness :
    GetNamespaces mixedLogs = .ok ["other", "svc"] ∧
    (["other", "svc"] : List String).Pairwise (fun a b => a < b) :=
  ⟨by decide, ((C14_namespaces_sorted mixedLogs).2 ["other", "svc"] (by decide)).1⟩

/-! ## Headers -/

theorem mapGet_mapSet (m : StringMap) (k v k' : String) :
    mapGet (mapSet m k v) k' = if k = k' then some v else mapGet m k' := by
  induction m with
  | nil =>
    by_cases h : k = k' <;> simp [mapSet, mapGet, h]
  | cons kv rest ih =>
    obtain ⟨k0, v0⟩ := kv
    unfold mapSet
    by_cases h0 : k0 = k
    · subst h0
      by_cases h : k0 = k' <;> simp [mapGet, h]
    · simp only [h0, ↓reduceIte, mapGet]
      by_cases h : k0 = k'
      · subst h
        simp [h0, Ne.symm h0]
      · simp only [h, ↓reduceIte, ih]

theorem mapGet_eq_none {β : Type} (m : List (String × β)) (k : String)
    (h : k ∉ m.map Prod.fst) : mapGet m k = none := by
  induction m with
  | nil => rfl
  | cons kv rest ih =>
    obtain ⟨k0, v0⟩ := kv
    simp only [List.map_cons, List.mem_cons, not_or] at h
    simp only [mapGet, Ne.symm h.1, ↓reduceIte]
    exact ih h.2

theorem mapGet_headers_foldl (h : Header) (acc : StringMap) (k : String)
    (hnodup : (h.map Prod.fst).Nodup) :
    mapGet (h.foldl (fun headers kv =>
        match kv.2 with
        | [] => headers
        | v0 :: _ => mapSet headers kv.1 v0) acc) k =
      match mapGet h k with
      | some (v0 :: _) => some v0
      | _ => mapGet acc k := by
  induction h generalizing acc with
  | nil => simp [mapGet]
  | cons kv rest ih =>
    obtain ⟨k0, vs⟩ := kv
    simp only [List.map_cons, List.nodup_cons] at hnodup
    simp only [List.foldl_cons]
    rw [ih _ hnodup.2]
    by_cases hk : k0 = k
    · subst hk
      rw [mapGet_eq_none rest k0 hnodup.1]
      cases vs with
      | nil => simp [mapGet]
      | cons v0 vs' => simp [mapGet, mapGet_mapSet]
    · simp only [mapGet, hk, ↓reduceIte]
      cases hrest : mapGet rest k with
      | none =>
        cases vs with
        | nil => rfl
        | cons v0 vs' => simp [mapGet_mapSet, hk]
      | some vals =>
        cases vals with
        | nil =>
          cases vs with
          | nil => rfl
          | cons v0 vs' => simp [mapGet_mapSet, hk]
        | cons w ws => rfl

/-- C15: for a header map `h` (one entry per header name) and a header name
`k`, `HeadersFromHTTP(h)` maps `k` to the first value of `h[k]` when `h[k]` has
at least one value, and has no entry for `k` when `h[k]` is absent or has no
value; a later value of `h[k]` is never the one it holds. -/
theorem C15_first_header_value (h : Header) (k : String)
    (hnodup : (h.map Prod.fst).Nodup) :
    (∀ v0 vs, mapGet h k = some (v0 :: vs) → mapGet (HeadersFromHTTP h) k = some v0) ∧
    (mapGet h k = some [] → mapGet (HeadersFromHTTP h) k = none) ∧
    (mapGet h k = none → mapGet (HeadersFromHTTP h) k = none) ∧
    (∀ v, mapGet (HeadersFromHTTP h) k = some v → ∃ vs, mapGet h k = some (v :: vs)) := by
  have key := mapGet_headers_foldl h [] k hnodup
  have hdef : mapGet (HeadersFromHTTP h) k =
      match mapGet h k with
      | some (v0 :: _) => some v0
      | _ => none := by
    unfold HeadersFromHTTP
    rw [key]
    rfl
  refine ⟨?_, ?_, ?_, ?_⟩
  · intro v0 vs hk
    rw [hdef, hk]
  · intro hk
    rw [hdef, hk]
  · intro hk
    rw [hdef, hk]
  · intro v hv
    rw [hdef] at hv
    cases hk : mapGet h k with
    | none => simp [hk] at hv
    | some vals =>
      cases vals with
      | nil => simp [hk] at hv
      | cons w ws =>
        simp only [hk, Option.some.injEq] at hv
        exact ⟨ws, by rw [hv]⟩

/-- C15 at `sampleHeader`: of the two values of `Accept` the first is kept, and
`X-Empty` has no entry. -/
theorem C15_first_header_value_witness :
    HeadersFromHTTP sampleHeader = [("Accept", "text/html"), ("X-Trace", "t1")] ∧
    mapGet (HeadersFromHTTP sampleHeader) "Accept" = some "text/html" ∧
    mapGet (HeadersFromHTTP sampleHeader) "X-Empty" = none :=
  ⟨by decide,
   (C15_first_header_value sampleHeader "Accept" (by decide)).1 "text/html"
     ["application/json"] (by decide),
   (C15_first_header_value sampleHeader "X-Empty" (by decide)).2.1 (by decide)⟩

/-! ## Runtime mutators -/

/-- C16: after `SetNamespace(ns)`, `GetNamespace()` returns `ns` and
`IsEnabled()` is unchanged; after a `SetEnabled(b)` that returned no error,
`IsEnabled()` returns `b` and `GetNamespace()` is unchanged, and after one that
returned an error both are unchanged; `SetEnabled(false)` never returns an
error, and `SetEnabled(false)` followed by `SetEnabled(true)` leaves the client
enabled whenever the second call returns no error, which it does when the
client already has its storage. -/
theorem C16_mutators_accessors (env env' : Env) (c : Client) (fs : LogsDir) (ns : String)
    (b : Bool) :
    ((c.SetNamespace ns).GetNamespace = ns ∧ (c.SetNamespace ns).IsEnabled = c.IsEnabled) ∧
    ((c.SetEnabled env fs b).2.2 = none →
      (c.SetEnabled env fs b).1.IsEnabled = b ∧
      (c.SetEnabled env fs b).1.GetNamespace = c.GetNamespace) ∧
    ((c.SetEnabled env fs b).2.2 ≠ none →
      (c.SetEnabled env fs b).1.IsEnabled = c.IsEnabled ∧
      (c.SetEnabled env fs b).1.GetNamespace = c.GetNamespace) ∧
    (c.SetEnabled env fs false).2.2 = none ∧
    (((c.SetEnabled env fs false).1.SetEnabled env' (c.SetEnabled env fs false).2.1 true).2.2
        = none →
      ((c.SetEnabled env fs false).1.SetEnabled env' (c.SetEnabled env fs false).2.1
        true).1.IsEnabled = true) ∧
    (c.storage ≠ none →
      ((c.SetEnabled env fs false).1.SetEnabled env' (c.SetEnabled env fs false).2.1 true).2.2
        = none) := by
  have hset : ∀ (e : Env) (d : Client) (g : LogsDir) (x : Bool),
      ((d.SetEnabled e g x).2.2 = none →
        (d.SetEnabled e g x).1.IsEnabled = x ∧
        (d.SetEnabled e g x).1.GetNamespace = d.GetNamespace) ∧
      ((d.SetEnabled e g x).2.2 ≠ none →
        (d.SetEnabled e g x).1.IsEnabled = d.IsEnabled ∧
        (d.SetEnabled e g x).1.GetNamespace = d.GetNamespace) := by
    intro e d g x
    unfold Client.SetEnabled
    split
    · split <;> simp [Client.IsEnabled, Client.GetNamespace]
    · simp [Client.IsEnabled, Client.GetNamespace]
  have hfalse : ∀ (e : Env) (d : Client) (g : LogsDir),
      d.SetEnabled e g false = ({ d with enabled := false }, g, none) := by
    intro e d g
    simp [Client.SetEnabled]
  refine ⟨⟨rfl, rfl⟩, (hset env c fs b).1, (hset env c fs b).2, ?_, ?_, ?_⟩
  · rw [hfalse]
  · exact fun h => ((hset env' _ _ true).1 h).1
  · intro hst
    rw [hfalse]
    cases hs : c.storage with
    | none => exact absurd hs hst
    | some st => simp [Client.SetEnabled, hs]

/-- C16 at `svcClient`: disabled, then enabled again when `storage.New` would
fail. -/
theorem C16_mutators_accessors_witness :
    ((svcClient.SetEnabled homeEnv emptyLogs false).1.SetEnabled noHomeEnv
        (svcClient.SetEnabled homeEnv emptyLogs false).2.1 true).2.2 = none ∧
    ((svcClient.SetEnabled homeEnv emptyLogs false).1.SetEnabled noHomeEnv
        (svcClient.SetEnabled homeEnv emptyLogs false).2.1 true).1.IsEnabled = true :=
  ⟨(C16_mutators_accessors homeEnv noHomeEnv svcClient emptyLogs "svc" false).2.2.2.2.2
     (by decide),
   (C16_mutators_accessors homeEnv noHomeEnv svcClient emptyLogs "svc" false).2.2.2.2.1
     ((C16_mutators_accessors homeEnv noHomeEnv svcClient emptyLogs "svc" false).2.2.2.2.2
       (by decide))⟩

/-! ## The default client -/

/-- C17 (defect of the code, at a concrete input): `WrapDefaultClient` with
`{Namespace: "svc", Enabled: true}` returns no error, and a request executed
through the default client afterwards returns what the plain client returns,
leaves the logs directory empty, and `LoadRequests("svc")` returns no record;
the same request sent through `Do` of the client that `New` builds from the same
configuration saves one record under `svc`. -/
theorem C17_default_client_not_logged :
    (WrapDefaultClient homeEnv stubHTTP stubHTTP svcConfig emptyLogs).2.2 = none ∧
    defaultClientDo (WrapDefaultClient homeEnv stubHTTP stubHTTP svcConfig emptyLogs).1
        (WrapDefaultClient homeEnv stubHTTP stubHTTP svcConfig emptyLogs).2.1 postRequest
      = (stubHTTP postRequest, emptyLogs) ∧
    LoadRequests postJSON
        (defaultClientDo (WrapDefaultClient homeEnv stubHTTP stubHTTP svcConfig emptyLogs).1
          (WrapDefaultClient homeEnv stubHTTP stubHTTP svcConfig emptyLogs).2.1 postRequest).2
        "svc" = .ok [] ∧
    (∃ c, (New homeEnv stubHTTP svcConfig emptyLogs).1 = .ok c ∧
      (c.Do postJSON 1000 "00ff00ff00ff00ff" 25 emptyLogs postRequest).map
        (fun res => LoadRequests postJSON res.fs "svc") = some (.ok [postRecord])) := by
  refine ⟨rfl, rfl, by decide, svcClient, rfl, by decide⟩

/-! ## Enabled clients have a storage -/

theorem SetEnabled_storage (env : Env) (c : Client) (fs : LogsDir) (b : Bool)
    (h : c.enabled = true → c.storage ≠ none) :
    (c.SetEnabled env fs b).1.enabled = true → (c.SetEnabled env fs b).1.storage ≠ none := by
  unfold Client.SetEnabled
  split
  · split
    · exact h
    · simp
  · rename_i hcond
    intro hen
    simp only at hen
    subst hen
    simp only
    intro hnone
    apply hcond
    simp [hnone]

theorem runOps_storage (ops : List ClientOp) (st : Client × LogsDir)
    (h : st.1.enabled = true → st.1.storage ≠ none) :
    (runOps st ops).1.enabled = true → (runOps st ops).1.storage ≠ none := by
  induction ops generalizing st with
  | nil => exact h
  | cons op rest ih =>
    unfold runOps
    rw [List.foldl_cons]
    apply ih
    cases op with
    | setNamespace ns => exact h
    | setEnabled env b => exact SetEnabled_storage env st.1 st.2 b h

theorem New_storage (env : Env) (plain : Request → Outcome) (config : Config)
    (fs fs1 : LogsDir) (c : Client) (hnew : New env plain config fs = (.ok c, fs1)) :
    c.enabled = true → c.storage ≠ none := by
  unfold New at hnew
  cases hE : config.Enabled with
  | false =>
    intro hen
    by_cases hn : config.Namespace = ""
    · simp only [hn, hE, ↓reduceIte, Bool.false_eq_true, Prod.mk.injEq,
        Except.ok.injEq] at hnew
      rw [← hnew.1] at hen
      exact absurd hen (by simp)
    · simp only [hn, hE, ↓reduceIte, Bool.false_eq_true, Prod.mk.injEq,
        Except.ok.injEq] at hnew
      rw [← hnew.1] at hen
      exact absurd hen (by simp)
  | true =>
    intro _
    cases hS : Storage.New env fs with
    | mk r fs' =>
      cases r with
      | error err =>
        by_cases hn : config.Namespace = "" <;> simp [hn, hE, hS] at hnew
      | ok store =>
        by_cases hn : config.Namespace = ""
        · simp only [hn, hE, ↓reduceIte, hS, Prod.mk.injEq, Except.ok.injEq] at hnew
          rw [← hnew.1]
          simp
        · simp only [hn, hE, ↓reduceIte, hS, Prod.mk.injEq, Except.ok.injEq] at hnew
          rw [← hnew.1]
          simp

/-- C18: every client reached from a successful `New(config)` by a sequence of
`SetNamespace` and `SetEnabled` calls, whether each `SetEnabled` returns an
error or not, has a storage when it is enabled, and `Do` on it returns (it does
not dereference a missing storage). -/
theorem C18_enabled_has_storage (env : Env) (plain : Request → Outcome) (config : Config)
    (fs fs1 : LogsDir) (c : Client) (hnew : New env plain config fs = (.ok c, fs1))
    (ops : List ClientOp) :
    ((runOps (c, fs1) ops).1.enabled = true → (runOps (c, fs1) ops).1.storage ≠ none) ∧
    ∀ (json : EncodingJSON) (startTime : Int) (reqID : String) (duration : Int)
      (fs' : LogsDir) (req : Request),
      ((runOps (c, fs1) ops).1.Do json startTime reqID duration fs' req).isSome = true := by
  have hinv := runOps_storage ops (c, fs1) (New_storage env plain config fs fs1 c hnew)
  refine ⟨hinv, ?_⟩
  intro json startTime reqID duration fs' req
  cases hen : (runOps (c, fs1) ops).1.enabled with
  | false =>
    unfold Client.Do
    simp [hen]
  | true =>
    cases hst : (runOps (c, fs1) ops).1.storage with
    | none => exact absurd hst (hinv hen)
    | some st =>
      rw [Do_enabled json _ st startTime reqID duration fs' req hen hst]
      rfl

/-- C18 at `sampleOps`, from a client created with logging disabled: the first
`SetEnabled(true)` fails and leaves it disabled, the last one finds the storage
of the second and leaves it enabled. -/
theorem C18_enabled_has_storage_witness :
    (runOps (freshClient, emptyLogs) [.setEnabled noHomeEnv true]).1.enabled = false ∧
    (runOps (freshClient, emptyLogs) sampleOps).1.enabled = true ∧
    (runOps (freshClient, emptyLogs) sampleOps).1.storage ≠ none ∧
    ((runOps (freshClient, emptyLogs) sampleOps).1.Do postJSON 1000 "00ff00ff00ff00ff" 25
      emptyLogs postRequest).isSome = true :=
  ⟨by decide, by decide,
   (C18_enabled_has_storage homeEnv stubHTTP { Namespace := "", Enabled := false } emptyLogs
      emptyLogs freshClient rfl sampleOps).1 (by decide),
   (C18_enabled_has_storage homeEnv stubHTTP { Namespace := "", Enabled := false } emptyLogs
      emptyLogs freshClient rfl sampleOps).2 postJSON 1000 "00ff00ff00ff00ff" 25 emptyLogs
      postRequest⟩

end Slurpy
